import Mathlib

/-!
Arrowhead arena allocator.

A shallow embedding of `src/src/Arena.cpp` and `src/include/Arrowhead/Arena.h`.

* `size_t` values and addresses are natural numbers; every `size_t` or pointer
  addition and subtraction of the source is reduced modulo `SIZE_RANGE = 2^64`.
* An `Arena` is the record of the five data members of `class Arena`.
* A call that does not return is the result `none`: a fatal assertion, or a
  `memset` that runs outside the memory of the arena. An operation that returns
  normally yields `some` of its return value and the updated state.
* Raw memory is a function from addresses to byte values.
-/

set_option linter.dupNamespace false

namespace arwh

/-- Number of distinct values of a 64-bit `size_t` (and of a 64-bit address). -/
def SIZE_RANGE : Nat := 18446744073709551616

/-- The value of `sizeof(Arena)` on a 64-bit target: two pointers, two `size_t`
and one `bool`, padded to the 8-byte alignment of the class. -/
def sizeofArena : Nat := 40

/-- Raw byte-addressed memory. -/
abbrev Memory := Nat → Nat

/-- Data members of `class Arena` (Arena.h, lines 68-72). -/
structure Arena where
  m_Data : Nat
  m_Position : Nat
  m_TotalSize : Nat
  m_AllocatedSize : Nat
  m_IsSelfAllocated : Bool
  deriving DecidableEq, Repr

/-- Modelled from the spec: the macro `ARWH_CORE_ASSERT` comes from
`Arrowhead/Logger.h`, which is not among the sources. Following section 6 of the
specification, a violated condition halts the caller and never returns (`none`);
a condition that holds lets execution continue. -/
def ARWH_CORE_ASSERT (cond : Bool) : Option Unit :=
  if cond then some () else none

/-- Store of one byte. -/
def Memory.write (mem : Memory) (addr val : Nat) : Memory :=
  fun x => if x = addr then val else mem x

/-- The libc routine `memset(dst, val, n)`: stores `val` into the `n` bytes that
start at `dst`, byte `i` living at address `dst + i` in 64-bit pointer
arithmetic. -/
def memset (mem : Memory) (dst val : Nat) : Nat → Memory
  | 0 => mem
  | n + 1 => (memset mem dst val n).write ((dst + n) % SIZE_RANGE) val

/-- The call `memset(dst, val, n)` made by an arena whose bytes are `[lo, hi)`. The
stores have a defined result only when the `n` bytes from `dst` lie inside
`[lo, hi)` and inside the 64-bit address space. Anywhere else they run over what
surrounds the buffer, the `Arena` header just below `lo` included, and the call
does not return. -/
def memset_within (lo hi : Nat) (mem : Memory) (dst val n : Nat) : Option Memory :=
  if lo ≤ dst ∧ dst + n ≤ hi ∧ hi ≤ SIZE_RANGE then some (memset mem dst val n) else none

namespace Arena

/-- The private constructor `Arena::Arena(size, selfAllocated)` (Arena.cpp,
lines 11-17) run at address `this`: the data block starts right after the
structure, `m_Data = this + 1`, and `m_AllocatedSize` takes its default `0`. -/
def Arena (this size : Nat) (selfAllocated : Bool) : arwh.Arena :=
  let data := (this + sizeofArena) % SIZE_RANGE
  ⟨data, data, size, 0, selfAllocated⟩

/-- Method `Arena::Push` (Arena.cpp, lines 19-29): `m_AllocatedSize += size`, the
assertion on the new value, then the cursor is returned and advanced. The result
is the returned block address together with the arena afterwards. -/
def Push (a : arwh.Arena) (size : Nat) : Option (Nat × arwh.Arena) := do
  let allocated := (a.m_AllocatedSize + size) % SIZE_RANGE
  ARWH_CORE_ASSERT (decide (allocated < a.m_TotalSize))
  let block := a.m_Position
  let position := (a.m_Position + size) % SIZE_RANGE
  pure (block, ⟨a.m_Data, position, a.m_TotalSize, allocated, a.m_IsSelfAllocated⟩)

/-- Method `Arena::Pop` (Arena.cpp, lines 31-37): the size is first clamped to
`m_AllocatedSize`, then both members are lowered by it. -/
def Pop (a : arwh.Arena) (size : Nat) : arwh.Arena :=
  let size := min size a.m_AllocatedSize
  ⟨a.m_Data, (a.m_Position + SIZE_RANGE - size) % SIZE_RANGE, a.m_TotalSize,
    a.m_AllocatedSize - size, a.m_IsSelfAllocated⟩

/-- Method `Arena::PushZero` (Arena.cpp, lines 39-45): `Push`, then `memset` of the
returned block. The bytes of the arena are those of its usable region, from
`m_Data` to `m_Data + m_TotalSize`. -/
def PushZero (a : arwh.Arena) (mem : Memory) (size : Nat) :
    Option (Nat × arwh.Arena × Memory) := do
  let (block, a') ← a.Push size
  let mem' ← memset_within a.m_Data (a.m_Data + a.m_TotalSize) mem block 0 size
  pure (block, a', mem')

/-- Method `Arena::GetPos` (Arena.h, line 51). -/
def GetPos (a : arwh.Arena) : Nat := a.m_AllocatedSize

/-- Method `Arena::SetPosBack` (Arena.cpp, lines 47-53). -/
def SetPosBack (a : arwh.Arena) (pos : Nat) : Option arwh.Arena := do
  ARWH_CORE_ASSERT (decide (pos < a.m_TotalSize))
  pure ⟨a.m_Data, (a.m_Data + pos) % SIZE_RANGE, a.m_TotalSize, pos, a.m_IsSelfAllocated⟩

/-- Method `Arena::Clear` (Arena.cpp, lines 55-59). -/
def Clear (a : arwh.Arena) : arwh.Arena :=
  ⟨a.m_Data, a.m_Data, a.m_TotalSize, 0, a.m_IsSelfAllocated⟩

/-- Factory `Arena::Create(size_t size)` (Arena.cpp, lines 64-70). `buffer` is the
address that `std::malloc(sizeof(Arena) + size)` returned. -/
def Create (buffer size : Nat) : arwh.Arena :=
  Arena buffer size true

/-- Factory `Arena::Create(void* buffer, size_t bufferSize)` (Arena.cpp, lines
73-77); the subtraction `bufferSize - sizeof(Arena)` is a `size_t` subtraction. -/
def Create_buffer (buffer bufferSize : Nat) : arwh.Arena :=
  let arenaSize := (bufferSize + SIZE_RANGE - sizeofArena) % SIZE_RANGE
  Arena buffer arenaSize false

end Arena

/-- Data members of `class ScratchSpace` (Arena.h, lines 135-137). The pointer
`m_Arena` is not stored: the arena it refers to is passed to each operation and
returned by it. -/
structure ScratchSpace where
  m_ResetPos : Nat
  m_HasReset : Bool
  deriving DecidableEq, Repr

namespace ScratchSpace

/-- Constructor `ScratchSpace::ScratchSpace(Arena* arena)` (Arena.cpp, lines 89-90). -/
def ScratchSpace (arena : Arena) : arwh.ScratchSpace :=
  ⟨arena.GetPos, false⟩

/-- Method `ScratchSpace::Reset` (Arena.cpp, lines 92-95), acting on the arena the
scratch space refers to. -/
def Reset (s : arwh.ScratchSpace) (arena : Arena) : Option (arwh.ScratchSpace × Arena) := do
  let arena' ← arena.SetPosBack s.m_ResetPos
  pure (s, arena')

/-- Method `ScratchSpace::HasReset` (Arena.h, line 133). -/
def HasReset (s : arwh.ScratchSpace) : Bool := s.m_HasReset

end ScratchSpace

/-- A client that performs the pushes `sizes` in order on one arena, with no
other operation in between, and records every block that is returned, with its
size. The run ends at the first push that takes the fatal path. -/
def pushedBlocks (a : Arena) : List Nat → List (Nat × Nat)
  | [] => []
  | size :: rest =>
    match a.Push size with
    | none => []
    | some (block, a1) => (block, size) :: pushedBlocks a1 rest

/-- Distance of the address `block` from `dataStart`, in pointer arithmetic. -/
def blockOffset (a : Arena) (block : Nat) : Nat :=
  (block + SIZE_RANGE - a.m_Data) % SIZE_RANGE

/-- The byte ranges `[r.1, r.1 + r.2)` and `[s.1, s.1 + s.2)` do not overlap. -/
def rangesDisjoint (r s : Nat × Nat) : Prop :=
  r.1 + r.2 ≤ s.1 ∨ s.1 + s.2 ≤ r.1

instance (r s : Nat × Nat) : Decidable (rangesDisjoint r s) := by
  unfold rangesDisjoint; infer_instance

/-- The arena states the interface can produce: the result of either `Create`,
followed by any number of operations that returned normally. -/
inductive Reachable : Arena → Prop
  | create (buffer size : Nat) (hs : size < SIZE_RANGE) :
      Reachable (Arena.Create buffer size)
  | create_buffer (buffer bufferSize : Nat) :
      Reachable (Arena.Create_buffer buffer bufferSize)
  | push {a a' : Arena} {size block : Nat} :
      Reachable a → a.Push size = some (block, a') → Reachable a'
  | pushZero {a a' : Arena} {mem mem' : Memory} {size block : Nat} :
      Reachable a → a.PushZero mem size = some (block, a', mem') → Reachable a'
  | pop {a : Arena} (size : Nat) : Reachable a → Reachable (a.Pop size)
  | setPosBack {a a' : Arena} {pos : Nat} :
      Reachable a → a.SetPosBack pos = some a' → Reachable a'
  | clear {a : Arena} : Reachable a → Reachable a.Clear

/-- The size invariant of the data model: `0 <= allocatedSize <= totalSize`. -/
def SizeInvariant (a : Arena) : Prop :=
  0 ≤ a.m_AllocatedSize ∧ a.m_AllocatedSize ≤ a.m_TotalSize

instance (a : Arena) : Decidable (SizeInvariant a) := by
  unfold SizeInvariant; infer_instance

/-- Facts that hold of every reachable arena: the members fit 64 bits, the
cursor is `m_Data + m_AllocatedSize` in pointer arithmetic, and the allocated
size is below the capacity unless nothing is allocated. -/
structure WellFormed (a : Arena) : Prop where
  data_lt : a.m_Data < SIZE_RANGE
  total_lt : a.m_TotalSize < SIZE_RANGE
  position_eq : a.m_Position = (a.m_Data + a.m_AllocatedSize) % SIZE_RANGE
  allocated_lt : a.m_AllocatedSize < a.m_TotalSize ∨ a.m_AllocatedSize = 0

/-! Pool allocator, string builder and scratch singletons -/

/-- Store of the low `n` bytes of `v` at `dst`, least significant byte first (the
object representation of an integer or pointer on a little-endian target). -/
def storeBytes (mem : Memory) (dst v : Nat) : Nat → Memory
  | 0 => mem
  | n + 1 => (storeBytes mem dst v n).write ((dst + n) % SIZE_RANGE) (v / 256 ^ n % 256)

/-- Value held by the `n` bytes at `src`, least significant byte first. -/
def loadBytes (mem : Memory) (src : Nat) : Nat → Nat
  | 0 => 0
  | n + 1 => loadBytes mem src n + mem ((src + n) % SIZE_RANGE) * 256 ^ n

/-- Store of a 64-bit pointer at address `dst`. -/
def storePtr (mem : Memory) (dst v : Nat) : Memory := storeBytes mem dst v 8

/-- Load of a 64-bit pointer from address `src`. -/
def loadPtr (mem : Memory) (src : Nat) : Nat := loadBytes mem src 8

/-- The libc routine `memcpy(dst, src, n)`, the source being given by its bytes:
byte `i` of `src` is stored at `dst + i` for every `i < n`. -/
def memcpy (mem : Memory) (dst : Nat) (src : List Nat) : Nat → Memory
  | 0 => mem
  | n + 1 => (memcpy mem dst src n).write ((dst + n) % SIZE_RANGE) (src.getD n 0)

/-- The `n` bytes of memory that start at `src`. -/
def readBytes (mem : Memory) (src n : Nat) : List Nat :=
  (List.range n).map (fun i => mem ((src + i) % SIZE_RANGE))

namespace Arena

/-- Method `Arena::PushArray<T>(count)` (Arena.h, lines 25-29); `sizeofT` is
`sizeof(T)` and the product is a `size_t` product. -/
def PushArray (a : arwh.Arena) (sizeofT count : Nat) : Option (Nat × arwh.Arena) :=
  a.Push ((sizeofT * count) % SIZE_RANGE)

/-- Method `Arena::PushStructZero<T>()` (Arena.h, lines 43-47). -/
def PushStructZero (a : arwh.Arena) (mem : Memory) (sizeofT : Nat) :
    Option (Nat × arwh.Arena × Memory) :=
  a.PushZero mem sizeofT

end Arena

/-- What the template parameter `T` fixes about `PoolArenaAllocator<T>::Node`
(Arena.h, lines 82-86): `sizeof(Node)` and the offset of the member `Next`. The
member `Value` comes first, at offset 0. -/
structure NodeLayout where
  sizeofNode : Nat
  offsetofNext : Nat
  deriving DecidableEq, Repr

/-- Data members of `class PoolArenaAllocator` (Arena.h, lines 121-122); the null
pointer is the address 0. -/
structure PoolArenaAllocator where
  m_FirstFree : Nat
  m_AllocationsCount : Nat
  deriving DecidableEq, Repr

namespace PoolArenaAllocator

/-- Method `PoolArenaAllocator::Allocate` (Arena.h, lines 88-106). `construct node`
is the effect on memory of the placement construction of `T` at `&node->Value`.
The result is the returned pointer `&node->Value`, the pool, the arena and the
memory afterwards. -/
def Allocate (layout : NodeLayout) (construct : Nat → Memory → Memory)
    (p : arwh.PoolArenaAllocator) (arena : Arena) (mem : Memory) :
    Option (Nat × arwh.PoolArenaAllocator × Arena × Memory) :=
  let count := (p.m_AllocationsCount + 1) % SIZE_RANGE
  let node := p.m_FirstFree
  if node ≠ 0 then
    let next := (node + layout.offsetofNext) % SIZE_RANGE
    let firstFree := loadPtr mem next
    let mem1 := storePtr mem next 0
    some (node, ⟨firstFree, count⟩, arena, construct node mem1)
  else do
    let (node, arena1, mem1) ← arena.PushStructZero mem layout.sizeofNode
    pure (node, ⟨p.m_FirstFree, count⟩, arena1, construct node mem1)

/-- Method `PoolArenaAllocator::Free` (Arena.h, lines 108-116). -/
def Free (layout : NodeLayout) (p : arwh.PoolArenaAllocator) (mem : Memory) (value : Nat) :
    arwh.PoolArenaAllocator × Memory :=
  let count := (p.m_AllocationsCount + SIZE_RANGE - 1) % SIZE_RANGE
  let node := value
  let mem1 := storePtr mem ((node + layout.offsetofNext) % SIZE_RANGE) p.m_FirstFree
  (⟨node, count⟩, mem1)

/-- Method `PoolArenaAllocator::GetAllocationsCount` (Arena.h, line 118). -/
def GetAllocationsCount (p : arwh.PoolArenaAllocator) : Nat := p.m_AllocationsCount

end PoolArenaAllocator

/-- Data members of `class StringBuilder` (Arena.h, lines 152-154). -/
structure StringBuilder where
  m_Result : Nat
  m_Position : Nat
  m_Size : Nat
  deriving DecidableEq, Repr

namespace StringBuilder

/-- Method `StringBuilder::Push` (Arena.cpp, lines 104-113). The argument is the
text that `value` points to, without its terminator, so that `strlen(value)` is
its length and the `length + 1` bytes copied are the text followed by 0. -/
def Push (sb : arwh.StringBuilder) (mem : Memory) (value : List Nat) :
    Option (arwh.StringBuilder × Memory) := do
  let length := value.length
  ARWH_CORE_ASSERT (decide ((sb.m_Position + length + 1) % SIZE_RANGE < sb.m_Size))
  let mem1 := memcpy mem ((sb.m_Result + sb.m_Position) % SIZE_RANGE) (value ++ [0]) (length + 1)
  pure (⟨sb.m_Result, (sb.m_Position + length) % SIZE_RANGE, sb.m_Size⟩, mem1)

/-- Constructor `StringBuilder::StringBuilder(Arena* arena, size_t size)`
(Arena.cpp, lines 98-102): the block is pushed from the arena, `m_Position`
takes its default 0, and the body pushes the empty text. -/
def StringBuilder (arena : Arena) (mem : Memory) (size : Nat) :
    Option (arwh.StringBuilder × Arena × Memory) := do
  let (block, arena1) ← arena.Push size
  let (sb, mem1) ← Push ⟨block, 0, size⟩ mem []
  pure (sb, arena1, mem1)

/-- Method `StringBuilder::Result` (Arena.h, line 147). -/
def Result (sb : arwh.StringBuilder) : Nat := sb.m_Result

end StringBuilder

/-- A client that appends the texts in order; it stops at the first append that
takes the fatal path. -/
def pushTexts (sb : StringBuilder) (mem : Memory) :
    List (List Nat) → Option (StringBuilder × Memory)
  | [] => some (sb, mem)
  | text :: rest => do
    let (sb1, mem1) ← sb.Push mem text
    pushTexts sb1 mem1 rest

/-- The builder holds the text `s`: the write cursor is its length, the bytes
from `Result()` on are those of `s`, the byte at the cursor is the terminator,
and the text with its terminator lies within the reserved block. -/
def Holds (sb : StringBuilder) (mem : Memory) (s : List Nat) : Prop :=
  sb.m_Position = s.length ∧ readBytes mem sb.Result (s.length + 1) = s ++ [0] ∧
    s.length + 1 ≤ sb.m_Size

/-- Capacity of each scratch arena, `ScratchSize` (Arena.cpp, line 7). -/
def ScratchSize : Nat := 1024 * 1024

/-- Blocks obtained from `std::malloc` and not yet passed to `free`, by address. -/
structure Heap where
  live : List Nat
  deriving DecidableEq, Repr

/-- The libc routine `free(p)`: the block at `p` is live no longer. -/
def Heap.free (h : Heap) (p : Nat) : Heap := ⟨h.live.erase p⟩

/-- What is assumed of `std::malloc`, as a function of the heap and the requested
size: the address it returns is not the null pointer and is not the address of a
live block. -/
def MallocContract (malloc : Heap → Nat → Nat) : Prop :=
  ∀ (h : Heap) (n : Nat), malloc h n ≠ 0 ∧ malloc h n ∉ h.live

/-- An allocation function that satisfies `MallocContract`: every new block lies
above all live ones. -/
def bumpMalloc (h : Heap) (_n : Nat) : Nat := h.live.sum + 4096

/-- State seen by one thread: its two `thread_local` scratch pointers (Arena.h,
lines 74-75; the null pointer is the address 0), the heap, and the `Arena`
objects that were constructed in memory, by address. -/
structure ThreadState where
  s_TempScratch : Nat
  s_PersistentScratch : Nat
  heap : Heap
  objects : List (Nat × Arena)
  deriving DecidableEq, Repr

/-- State of a thread that has run nothing yet: both scratch pointers hold their
initialiser `nullptr`. -/
def ThreadState.start (heap : Heap) (objects : List (Nat × Arena)) : ThreadState :=
  ⟨0, 0, heap, objects⟩

namespace Arena

/-- Function `Arena::Dispose(Arena* arena)` (Arena.h, line 57), `a` being the
object that `arena` points to; the result is the heap afterwards. -/
def Dispose (heap : Heap) (arena : Nat) (a : arwh.Arena) : Heap :=
  if a.m_IsSelfAllocated then heap.free arena else heap

/-- Factory `Arena::Create(size_t size)` (Arena.cpp, lines 64-70) together with
its effect on the heap and on memory: `malloc` picks the buffer and the arena is
constructed at its start. The result is the returned pointer and the state
afterwards. -/
def Create_malloc (malloc : Heap → Nat → Nat) (t : ThreadState) (size : Nat) :
    Nat × ThreadState :=
  let bufferSize := (sizeofArena + size) % SIZE_RANGE
  let buffer := malloc t.heap bufferSize
  (buffer, ⟨t.s_TempScratch, t.s_PersistentScratch, ⟨buffer :: t.heap.live⟩,
    (buffer, Create buffer size) :: t.objects⟩)

/-- Function `Arena::InitScratch` (Arena.cpp, lines 79-86). -/
def InitScratch (malloc : Heap → Nat → Nat) (t : ThreadState) : ThreadState :=
  if t.s_TempScratch = 0 ∧ t.s_PersistentScratch = 0 then
    let r1 := Create_malloc malloc t ScratchSize
    let t1 : ThreadState := ⟨r1.1, r1.2.s_PersistentScratch, r1.2.heap, r1.2.objects⟩
    let r2 := Create_malloc malloc t1 ScratchSize
    ⟨r2.2.s_TempScratch, r2.1, r2.2.heap, r2.2.objects⟩
  else t

/-- Function `Arena::GetTempScratch` (Arena.h, line 62). -/
def GetTempScratch (t : ThreadState) : Nat := t.s_TempScratch

/-- Function `Arena::GetPersistentScratch` (Arena.h, line 63). -/
def GetPersistentScratch (t : ThreadState) : Nat := t.s_PersistentScratch

/-- The call `Dispose(arena)` on the thread state. The pointer is dereferenced,
so without an `Arena` object at that address the call has no defined result
(`none`). -/
def Dispose_at (t : ThreadState) (arena : Nat) : Option ThreadState :=
  match t.objects.lookup arena with
  | none => none
  | some a => some ⟨t.s_TempScratch, t.s_PersistentScratch, Dispose t.heap arena a, t.objects⟩

/-- Function `Arena::DisposeScratch` (Arena.h, line 60). -/
def DisposeScratch (t : ThreadState) : Option ThreadState := do
  let t1 ← Dispose_at t t.s_TempScratch
  Dispose_at t1 t1.s_PersistentScratch

end Arena

/-- A client that calls `ScratchSpace::Reset` `n` times in a row; it stops at the
first call that takes the fatal path. -/
def resetTimes (s : ScratchSpace) (arena : Arena) : Nat → Option (ScratchSpace × Arena)
  | 0 => some (s, arena)
  | n + 1 => do
    let (s1, arena1) ← s.Reset arena
    resetTimes s1 arena1 n

/-- The cursor agrees with the allocated size:
`m_Position == m_Data + m_AllocatedSize` modulo `2^64`. -/
def Consistent (a : Arena) : Prop :=
  a.m_Position = (a.m_Data + a.m_AllocatedSize) % SIZE_RANGE

instance (a : Arena) : Decidable (Consistent a) := by
  unfold Consistent; infer_instance

/-- The address and size members hold values of their 64-bit types. -/
def Representable (a : Arena) : Prop :=
  a.m_Data < SIZE_RANGE ∧ a.m_TotalSize < SIZE_RANGE ∧ a.m_AllocatedSize < SIZE_RANGE

instance (a : Arena) : Decidable (Representable a) := by
  unfold Representable; infer_instance

/-! ## Basic facts about the operations -/

theorem push_eq_some {a a' : Arena} {size block : Nat}
    (h : a.Push size = some (block, a')) :
    (a.m_AllocatedSize + size) % SIZE_RANGE < a.m_TotalSize ∧ block = a.m_Position ∧
      a' = ⟨a.m_Data, (a.m_Position + size) % SIZE_RANGE, a.m_TotalSize,
        (a.m_AllocatedSize + size) % SIZE_RANGE, a.m_IsSelfAllocated⟩ := by
  unfold Arena.Push ARWH_CORE_ASSERT at h
  by_cases hlt : (a.m_AllocatedSize + size) % SIZE_RANGE < a.m_TotalSize
  · simp [hlt] at h
    exact ⟨hlt, h.1.symm, h.2.symm⟩
  · simp [hlt] at h

theorem push_of_lt (a : Arena) (size : Nat)
    (h : (a.m_AllocatedSize + size) % SIZE_RANGE < a.m_TotalSize) :
    a.Push size = some (a.m_Position,
      ⟨a.m_Data, (a.m_Position + size) % SIZE_RANGE, a.m_TotalSize,
        (a.m_AllocatedSize + size) % SIZE_RANGE, a.m_IsSelfAllocated⟩) := by
  unfold Arena.Push ARWH_CORE_ASSERT
  simp [h]

theorem push_of_le (a : Arena) (size : Nat)
    (h : a.m_TotalSize ≤ (a.m_AllocatedSize + size) % SIZE_RANGE) :
    a.Push size = none := by
  unfold Arena.Push ARWH_CORE_ASSERT
  simp [Nat.not_lt.mpr h]

theorem setPosBack_eq_some {a a' : Arena} {pos : Nat}
    (h : a.SetPosBack pos = some a') :
    pos < a.m_TotalSize ∧
      a' = ⟨a.m_Data, (a.m_Data + pos) % SIZE_RANGE, a.m_TotalSize, pos,
        a.m_IsSelfAllocated⟩ := by
  unfold Arena.SetPosBack ARWH_CORE_ASSERT at h
  by_cases hlt : pos < a.m_TotalSize
  · simp [hlt] at h
    exact ⟨hlt, h.symm⟩
  · simp [hlt] at h

theorem setPosBack_of_lt (a : Arena) (pos : Nat) (h : pos < a.m_TotalSize) :
    a.SetPosBack pos = some ⟨a.m_Data, (a.m_Data + pos) % SIZE_RANGE, a.m_TotalSize, pos,
      a.m_IsSelfAllocated⟩ := by
  unfold Arena.SetPosBack ARWH_CORE_ASSERT
  simp [h]

theorem setPosBack_of_le (a : Arena) (pos : Nat) (h : a.m_TotalSize ≤ pos) :
    a.SetPosBack pos = none := by
  unfold Arena.SetPosBack ARWH_CORE_ASSERT
  simp [Nat.not_lt.mpr h]

theorem pushZero_eq_some {a a' : Arena} {mem mem' : Memory} {size block : Nat}
    (h : a.PushZero mem size = some (block, a', mem')) :
    a.Push size = some (block, a') ∧ mem' = memset mem block 0 size ∧
      a.m_Data ≤ block ∧ block + size ≤ a.m_Data + a.m_TotalSize ∧
      a.m_Data + a.m_TotalSize ≤ SIZE_RANGE := by
  unfold Arena.PushZero memset_within at h
  cases hp : a.Push size with
  | none => simp [hp] at h
  | some r =>
    obtain ⟨b, a1⟩ := r
    by_cases hin : a.m_Data ≤ b ∧ b + size ≤ a.m_Data + a.m_TotalSize ∧
        a.m_Data + a.m_TotalSize ≤ SIZE_RANGE
    · simp [hp, hin] at h
      obtain ⟨rfl, rfl, rfl⟩ := h
      exact ⟨rfl, rfl, hin⟩
    · simp [hp, hin] at h

theorem pushZero_of_within (a a' : Arena) (mem : Memory) (size block : Nat)
    (hp : a.Push size = some (block, a'))
    (hin : a.m_Data ≤ block ∧ block + size ≤ a.m_Data + a.m_TotalSize ∧
      a.m_Data + a.m_TotalSize ≤ SIZE_RANGE) :
    a.PushZero mem size = some (block, a', memset mem block 0 size) := by
  unfold Arena.PushZero memset_within
  simp [hp, hin]

theorem pushZero_of_outside (a a' : Arena) (mem : Memory) (size block : Nat)
    (hp : a.Push size = some (block, a'))
    (hout : ¬ (a.m_Data ≤ block ∧ block + size ≤ a.m_Data + a.m_TotalSize ∧
      a.m_Data + a.m_TotalSize ≤ SIZE_RANGE)) :
    a.PushZero mem size = none := by
  unfold Arena.PushZero memset_within
  simp [hp, hout]

theorem WellFormed.push {a a' : Arena} {size block : Nat} (hw : WellFormed a)
    (h : a.Push size = some (block, a')) : WellFormed a' := by
  obtain ⟨hlt, -, rfl⟩ := push_eq_some h
  obtain ⟨hd, ht, hp, -⟩ := hw
  refine ⟨hd, ht, ?_, Or.inl hlt⟩
  simp only [SIZE_RANGE] at *
  omega

theorem WellFormed.pop {a : Arena} (size : Nat) (hw : WellFormed a) :
    WellFormed (a.Pop size) := by
  obtain ⟨hd, ht, hp, ha⟩ := hw
  refine ⟨hd, ht, ?_, ?_⟩
  · simp only [Arena.Pop, SIZE_RANGE] at *
    omega
  · simp only [Arena.Pop]
    omega

theorem WellFormed.setPosBack {a a' : Arena} {pos : Nat} (hw : WellFormed a)
    (h : a.SetPosBack pos = some a') : WellFormed a' := by
  obtain ⟨hlt, rfl⟩ := setPosBack_eq_some h
  exact ⟨hw.data_lt, hw.total_lt, rfl, Or.inl hlt⟩

theorem WellFormed.clear {a : Arena} (hw : WellFormed a) : WellFormed a.Clear := by
  refine ⟨hw.data_lt, hw.total_lt, ?_, Or.inr rfl⟩
  have := hw.data_lt
  simp only [Arena.Clear, SIZE_RANGE] at *
  omega

theorem WellFormed.arena (this size : Nat) (selfAllocated : Bool) (hs : size < SIZE_RANGE) :
    WellFormed (Arena.Arena this size selfAllocated) := by
  refine ⟨?_, hs, ?_, Or.inr rfl⟩
  · simp only [Arena.Arena, SIZE_RANGE]
    omega
  · simp only [Arena.Arena, SIZE_RANGE]
    omega

/-- Every reachable arena is well formed. -/
theorem Reachable.wellFormed {a : Arena} (h : Reachable a) : WellFormed a := by
  induction h with
  | create buffer size hs => exact WellFormed.arena buffer size true hs
  | create_buffer buffer bufferSize =>
    refine WellFormed.arena buffer _ false ?_
    simp only [SIZE_RANGE]
    omega
  | push _ hp ih => exact ih.push hp
  | pushZero _ hp ih => exact ih.push (pushZero_eq_some hp).1
  | pop size _ ih => exact ih.pop size
  | setPosBack _ hp ih => exact ih.setPosBack hp
  | clear _ ih => exact ih.clear

theorem push_eq_none_iff (a : Arena) (size : Nat) :
    a.Push size = none ↔ a.m_TotalSize ≤ (a.m_AllocatedSize + size) % SIZE_RANGE := by
  constructor
  · intro h
    by_contra hlt
    rw [push_of_lt a size (Nat.not_le.mp hlt)] at h
    cases h
  · exact push_of_le a size

/-! ## Push -/

/-- C1: the claim says that a push with `allocatedSize + size == totalSize`
succeeds. On a fresh arena of capacity 8 the push of 8 bytes reaches the capacity
exactly (`0 + 8 = 8`), yet `Arena::Push` takes the fatal-assertion path, because
its assertion is the strict `m_AllocatedSize < m_TotalSize`. -/
theorem push_exactly_to_capacity_is_fatal :
    (Arena.Create 4096 8).m_AllocatedSize + 8 = (Arena.Create 4096 8).m_TotalSize ∧
      (Arena.Create 4096 8).Push 8 = none := by
  decide

/-- When `Push(size)` returns on a reachable arena, the returned block is the
cursor held before the call, which lies `allocatedSize` bytes after `dataStart`;
the cursor and `allocatedSize` have both moved by `size` modulo `2^64` only, which
is the exact sum as natural numbers whenever that sum fits 64 bits; and
`totalSize`, `dataStart` and the ownership flag are unchanged. -/
theorem push_effect_modulo (a a' : Arena) (size block : Nat)
    (hr : Reachable a) (h : a.Push size = some (block, a')) :
    block = a.m_Position ∧
      block = (a.m_Data + a.m_AllocatedSize) % SIZE_RANGE ∧
      a'.m_Position = (a.m_Position + size) % SIZE_RANGE ∧
      a'.m_AllocatedSize = (a.m_AllocatedSize + size) % SIZE_RANGE ∧
      (a.m_Position + size < SIZE_RANGE → a'.m_Position = a.m_Position + size) ∧
      (a.m_AllocatedSize + size < SIZE_RANGE →
        a'.m_AllocatedSize = a.m_AllocatedSize + size) ∧
      a'.m_TotalSize = a.m_TotalSize ∧ a'.m_Data = a.m_Data ∧
      a'.m_IsSelfAllocated = a.m_IsSelfAllocated := by
  obtain ⟨-, rfl, rfl⟩ := push_eq_some h
  refine ⟨rfl, hr.wellFormed.position_eq, rfl, rfl, ?_, ?_, rfl, rfl, rfl⟩
  · intro hlt
    exact Nat.mod_eq_of_lt hlt
  · intro hlt
    exact Nat.mod_eq_of_lt hlt

/-- C2: the claim says that after every push that returns, the cursor and
`allocatedSize` have advanced by exactly `size`. On the arena reached by
`Create(10); Push(5)` the call `Push(2^64 - 3)` returns the block at the old
cursor, yet `allocatedSize` goes from 5 to 2 and the cursor from 4141 to 4138:
both have moved back by 3 instead of forward by `size`, because the additions
wrap before the assertion is evaluated. -/
theorem push_after_wrap_moves_cursor_back :
    (Arena.Create 4096 10).Push 5 = some (4136, ⟨4136, 4141, 10, 5, true⟩) ∧
      (⟨4136, 4141, 10, 5, true⟩ : Arena).Push (SIZE_RANGE - 3) =
        some (4141, ⟨4136, 4138, 10, 2, true⟩) ∧
      (⟨4136, 4138, 10, 2, true⟩ : Arena).m_AllocatedSize ≠
        (⟨4136, 4141, 10, 5, true⟩ : Arena).m_AllocatedSize + (SIZE_RANGE - 3) ∧
      (⟨4136, 4138, 10, 2, true⟩ : Arena).m_Position ≠
        (⟨4136, 4141, 10, 5, true⟩ : Arena).m_Position + (SIZE_RANGE - 3) ∧
      (⟨4136, 4138, 10, 2, true⟩ : Arena).m_AllocatedSize + 3 =
        (⟨4136, 4141, 10, 5, true⟩ : Arena).m_AllocatedSize ∧
      (⟨4136, 4138, 10, 2, true⟩ : Arena).m_Position + 3 =
        (⟨4136, 4141, 10, 5, true⟩ : Arena).m_Position := by
  decide

/-! ## The size invariant -/

/-- C3: `0 <= allocatedSize <= totalSize` holds for the arena returned by
`Create(size)`, whose `allocatedSize` is 0 and whose `totalSize` is `size`, and
every `Push`, `PushZero`, `Pop`, `SetPosBack` and `Clear` that returns preserves
it, whatever the argument; hence it holds in every reachable arena. -/
theorem size_invariant_established_and_preserved :
    (∀ buffer size : Nat, (Arena.Create buffer size).m_AllocatedSize = 0 ∧
        (Arena.Create buffer size).m_TotalSize = size ∧
        SizeInvariant (Arena.Create buffer size)) ∧
      (∀ (a a' : Arena) (size block : Nat), SizeInvariant a →
        a.Push size = some (block, a') → SizeInvariant a') ∧
      (∀ (a a' : Arena) (mem mem' : Memory) (size block : Nat), SizeInvariant a →
        a.PushZero mem size = some (block, a', mem') → SizeInvariant a') ∧
      (∀ (a : Arena) (size : Nat), SizeInvariant a → SizeInvariant (a.Pop size)) ∧
      (∀ (a a' : Arena) (pos : Nat), SizeInvariant a →
        a.SetPosBack pos = some a' → SizeInvariant a') ∧
      (∀ a : Arena, SizeInvariant a → SizeInvariant a.Clear) ∧
      (∀ a : Arena, Reachable a → SizeInvariant a) := by
  have hpush : ∀ (a a' : Arena) (size block : Nat),
      a.Push size = some (block, a') → SizeInvariant a' := by
    intro a a' size block h
    obtain ⟨hlt, -, rfl⟩ := push_eq_some h
    exact ⟨Nat.zero_le _, Nat.le_of_lt hlt⟩
  refine ⟨?_, ?_, ?_, ?_, ?_, ?_, ?_⟩
  · intro buffer size
    exact ⟨rfl, rfl, Nat.zero_le _, Nat.zero_le _⟩
  · intro a a' size block _ h
    exact hpush a a' size block h
  · intro a a' mem mem' size block _ h
    exact hpush a a' size block (pushZero_eq_some h).1
  · intro a size hinv
    refine ⟨Nat.zero_le _, ?_⟩
    have := hinv.2
    simp only [Arena.Pop]
    omega
  · intro a a' pos _ h
    obtain ⟨hlt, rfl⟩ := setPosBack_eq_some h
    exact ⟨Nat.zero_le _, Nat.le_of_lt hlt⟩
  · intro a _
    exact ⟨Nat.zero_le _, Nat.zero_le _⟩
  · intro a hr
    refine ⟨Nat.zero_le _, ?_⟩
    rcases hr.wellFormed.allocated_lt with h | h
    · exact Nat.le_of_lt h
    · rw [h]
      exact Nat.zero_le _

theorem size_invariant_established_and_preserved_witness :
    SizeInvariant (Arena.Create 4096 8) ∧
      SizeInvariant (⟨4136, 4139, 8, 3, true⟩ : Arena) ∧
      SizeInvariant ((⟨4136, 4139, 8, 3, true⟩ : Arena).Pop 5) ∧
      SizeInvariant (⟨4136, 4138, 8, 2, true⟩ : Arena) ∧
      SizeInvariant (⟨4136, 4139, 8, 3, true⟩ : Arena).Clear :=
  have h0 := (size_invariant_established_and_preserved.1 4096 8).2.2
  have h1 := size_invariant_established_and_preserved.2.1
    (Arena.Create 4096 8) ⟨4136, 4139, 8, 3, true⟩ 3 4136 h0 (by decide)
  ⟨h0, h1,
    size_invariant_established_and_preserved.2.2.2.1 _ 5 h1,
    size_invariant_established_and_preserved.2.2.2.2.1
      ⟨4136, 4139, 8, 3, true⟩ ⟨4136, 4138, 8, 2, true⟩ 2 h1 (by decide),
    size_invariant_established_and_preserved.2.2.2.2.2.1 _ h1⟩

/-! ## Sequences of pushes -/

theorem blockOffset_position {a : Arena} (hw : WellFormed a) :
    blockOffset a a.m_Position = a.m_AllocatedSize := by
  obtain ⟨hd, ht, hp, ha⟩ := hw
  simp only [blockOffset, SIZE_RANGE] at *
  omega

/-- Every block returned by a run of pushes that stays within the capacity lies
between the allocated size before the run and the allocated size the run would
end with, and the blocks do not overlap one another. -/
theorem pushedBlocks_offsets (sizes : List Nat) :
    ∀ a : Arena, WellFormed a → a.m_AllocatedSize + sizes.sum ≤ a.m_TotalSize →
      (∀ b ∈ pushedBlocks a sizes, a.m_AllocatedSize ≤ blockOffset a b.1 ∧
        blockOffset a b.1 + b.2 ≤ a.m_AllocatedSize + sizes.sum) ∧
      ((pushedBlocks a sizes).map (fun b => (blockOffset a b.1, b.2))).Pairwise
        rangesDisjoint := by
  induction sizes with
  | nil =>
    intro a _ _
    simp [pushedBlocks]
  | cons size rest ih =>
    intro a hw hcap
    rw [List.sum_cons] at hcap
    cases hp : a.Push size with
    | none => simp [pushedBlocks, hp]
    | some r =>
      obtain ⟨block, a1⟩ := r
      have hw1 : WellFormed a1 := hw.push hp
      obtain ⟨-, hb, ha1⟩ := push_eq_some hp
      have hoff : blockOffset a block = a.m_AllocatedSize := by
        rw [hb]
        exact blockOffset_position hw
      have htot := hw.total_lt
      have halloc : a1.m_AllocatedSize = a.m_AllocatedSize + size := by
        rw [ha1]
        simp only [SIZE_RANGE] at *
        omega
      have hdata : a1.m_Data = a.m_Data := by rw [ha1]
      have htotal : a1.m_TotalSize = a.m_TotalSize := by rw [ha1]
      have hsame : ∀ x, blockOffset a1 x = blockOffset a x := by
        intro x
        simp only [blockOffset, hdata]
      obtain ⟨hrange, hpw⟩ := ih a1 hw1 (by rw [halloc, htotal]; omega)
      have hblocks : pushedBlocks a (size :: rest) = (block, size) :: pushedBlocks a1 rest := by
        simp [pushedBlocks, hp]
      rw [hblocks]
      refine ⟨?_, ?_⟩
      · intro b hmem
        rcases List.mem_cons.mp hmem with rfl | hmem
        · simp only [hoff, List.sum_cons]
          omega
        · have := hrange b hmem
          rw [hsame, halloc] at this
          simp only [List.sum_cons]
          omega
      · rw [List.map_cons, List.pairwise_cons]
        refine ⟨?_, ?_⟩
        · intro r hr
          obtain ⟨b, hmem, rfl⟩ := List.mem_map.mp hr
          have := (hrange b hmem).1
          rw [hsame, halloc] at this
          left
          simp only [hoff]
          exact this
        · simpa only [hsame] using hpw

/-- A run of pushes that stays strictly below the capacity returns a block for
every one of its pushes. -/
theorem pushedBlocks_length (sizes : List Nat) :
    ∀ a : Arena, a.m_TotalSize < SIZE_RANGE →
      a.m_AllocatedSize + sizes.sum < a.m_TotalSize →
      (pushedBlocks a sizes).length = sizes.length := by
  induction sizes with
  | nil => intro a _ _; rfl
  | cons size rest ih =>
    intro a ht hcap
    rw [List.sum_cons] at hcap
    have hmod : (a.m_AllocatedSize + size) % SIZE_RANGE = a.m_AllocatedSize + size := by
      simp only [SIZE_RANGE] at *
      omega
    have hp := push_of_lt a size (by rw [hmod]; omega)
    have hrest := ih ⟨a.m_Data, (a.m_Position + size) % SIZE_RANGE, a.m_TotalSize,
      (a.m_AllocatedSize + size) % SIZE_RANGE, a.m_IsSelfAllocated⟩ ht
      (by simp only [hmod]; omega)
    simp [pushedBlocks, hp, hrest]

/-- C4: for every sequence of pushes on a reachable arena, with no other operation
in between, whose cumulative size together with what is already allocated stays
within the capacity, the blocks returned, taken as byte ranges
`[offset, offset + size)` from `dataStart`, are pairwise non-overlapping. -/
theorem pushed_blocks_pairwise_disjoint (a : Arena) (sizes : List Nat) (hr : Reachable a)
    (hcap : a.m_AllocatedSize + sizes.sum ≤ a.m_TotalSize) :
    ((pushedBlocks a sizes).map (fun b => (blockOffset a b.1, b.2))).Pairwise
      rangesDisjoint :=
  (pushedBlocks_offsets sizes a hr.wellFormed hcap).2

theorem pushed_blocks_pairwise_disjoint_witness :
    Reachable (Arena.Create 4096 16) ∧
      (Arena.Create 4096 16).m_AllocatedSize + [3, 0, 5, 7].sum ≤
        (Arena.Create 4096 16).m_TotalSize ∧
      pushedBlocks (Arena.Create 4096 16) [3, 0, 5, 7] =
        [(4136, 3), (4139, 0), (4139, 5), (4144, 7)] ∧
      ((pushedBlocks (Arena.Create 4096 16) [3, 0, 5, 7]).map
        (fun b => (blockOffset (Arena.Create 4096 16) b.1, b.2))).Pairwise rangesDisjoint :=
  have hr : Reachable (Arena.Create 4096 16) := Reachable.create 4096 16 (by decide)
  have hcap : (Arena.Create 4096 16).m_AllocatedSize + [3, 0, 5, 7].sum ≤
      (Arena.Create 4096 16).m_TotalSize := by decide
  ⟨hr, hcap, by decide, pushed_blocks_pairwise_disjoint _ _ hr hcap⟩

/-! ## Pop -/

/-- On a reachable arena a push of fewer bytes than remain, followed at once
by a pop of the same size, gives back the arena held before the push. -/
theorem push_then_pop_restores (a : Arena) (n : Nat) (hr : Reachable a)
    (hn : a.m_AllocatedSize + n < a.m_TotalSize) :
    ∃ block a1, a.Push n = some (block, a1) ∧ a1.Pop n = a := by
  obtain ⟨hd, ht, hp, -⟩ := hr.wellFormed
  have hmod : (a.m_AllocatedSize + n) % SIZE_RANGE = a.m_AllocatedSize + n := by
    simp only [SIZE_RANGE] at *
    omega
  refine ⟨_, _, push_of_lt a n (by rw [hmod]; exact hn), ?_⟩
  obtain ⟨data, position, total, allocated, flag⟩ := a
  simp only [Arena.Pop, hmod, Arena.mk.injEq, true_and, and_true] at *
  refine ⟨?_, ?_⟩
  · simp only [SIZE_RANGE] at *
    omega
  · omega

/-- C5: the claim says that `Push(n)` followed by `Pop(n)` succeeds for every
`n <= totalSize - allocatedSize`. On a fresh arena of capacity 8 the remaining
capacity is 8, yet `Push(8)` takes the fatal path, so the pair never reaches
`Pop(8)`. -/
theorem push_then_pop_at_remaining_capacity_is_fatal :
    8 ≤ (Arena.Create 4096 8).m_TotalSize - (Arena.Create 4096 8).m_AllocatedSize ∧
      ((Arena.Create 4096 8).Push 8).map (fun r => r.2.Pop 8) = none := by
  decide

/-- C6: `Pop(size)` is a total operation. On every reachable arena it lowers
`allocatedSize` by exactly `min(size, allocatedSize)` and moves the cursor back
by the same amount (in pointer arithmetic, and as the exact difference whenever
the cursor is at least that large); popping at least what is allocated leaves
`allocatedSize = 0` with the cursor at `dataStart`; `totalSize` is unchanged. -/
theorem pop_clamps_to_allocated (a : Arena) (size : Nat) (hr : Reachable a) :
    (a.Pop size).m_AllocatedSize + min size a.m_AllocatedSize = a.m_AllocatedSize ∧
      ((a.Pop size).m_Position + min size a.m_AllocatedSize) % SIZE_RANGE = a.m_Position ∧
      (min size a.m_AllocatedSize ≤ a.m_Position →
        (a.Pop size).m_Position + min size a.m_AllocatedSize = a.m_Position) ∧
      (a.m_AllocatedSize ≤ size →
        (a.Pop size).m_AllocatedSize = 0 ∧ (a.Pop size).m_Position = a.m_Data) ∧
      (a.Pop size).m_TotalSize = a.m_TotalSize := by
  obtain ⟨hd, ht, hp, ha⟩ := hr.wellFormed
  simp only [Arena.Pop]
  refine ⟨?_, ?_, ?_, ?_, trivial⟩
  · omega
  · simp only [SIZE_RANGE] at *
    omega
  · intro hle
    simp only [SIZE_RANGE] at *
    omega
  · intro hle
    simp only [SIZE_RANGE] at *
    omega

theorem pop_clamps_to_allocated_witness :
    Reachable (⟨4136, 4139, 8, 3, true⟩ : Arena) ∧
      ((⟨4136, 4139, 8, 3, true⟩ : Arena).Pop 5).m_AllocatedSize = 0 ∧
      ((⟨4136, 4139, 8, 3, true⟩ : Arena).Pop 5).m_Position = 4136 ∧
      ((⟨4136, 4139, 8, 3, true⟩ : Arena).Pop 2).m_AllocatedSize + 2 = 3 ∧
      ((⟨4136, 4139, 8, 3, true⟩ : Arena).Pop 2).m_Position + 2 = 4139 :=
  have hr : Reachable (⟨4136, 4139, 8, 3, true⟩ : Arena) :=
    Reachable.push (Reachable.create 4096 8 (by decide))
      (by decide : (Arena.Create 4096 8).Push 3 = some (4136, ⟨4136, 4139, 8, 3, true⟩))
  ⟨hr, ((pop_clamps_to_allocated _ 5 hr).2.2.2.1 (by decide)).1,
    ((pop_clamps_to_allocated _ 5 hr).2.2.2.1 (by decide)).2,
    (pop_clamps_to_allocated _ 2 hr).1,
    (pop_clamps_to_allocated _ 2 hr).2.2.1 (by decide)⟩

/-! ## SetPosBack and Clear -/

/-- C7: `SetPosBack(position)` takes the fatal path exactly when
`position >= totalSize`. Otherwise it returns with `allocatedSize = position`,
the cursor at `dataStart + position` (in pointer arithmetic, and as the exact sum
whenever that fits 64 bits) and `totalSize` unchanged, and a second call with the
same position leaves that state as it is. -/
theorem setPosBack_fatal_iff_and_effect (a : Arena) (pos : Nat) :
    (a.SetPosBack pos = none ↔ a.m_TotalSize ≤ pos) ∧
      (pos < a.m_TotalSize → ∃ a', a.SetPosBack pos = some a' ∧
        a'.m_AllocatedSize = pos ∧
        a'.m_Position = (a.m_Data + pos) % SIZE_RANGE ∧
        (a.m_Data + pos < SIZE_RANGE → a'.m_Position = a.m_Data + pos) ∧
        a'.m_TotalSize = a.m_TotalSize ∧
        a'.SetPosBack pos = some a') := by
  refine ⟨⟨?_, setPosBack_of_le a pos⟩, ?_⟩
  · intro h
    by_contra hlt
    rw [setPosBack_of_lt a pos (Nat.not_le.mp hlt)] at h
    cases h
  · intro hlt
    refine ⟨_, setPosBack_of_lt a pos hlt, rfl, rfl, ?_, rfl, ?_⟩
    · intro hfit
      exact Nat.mod_eq_of_lt hfit
    · exact setPosBack_of_lt _ pos hlt

theorem setPosBack_fatal_iff_and_effect_witness :
    2 < (⟨4136, 4141, 8, 5, true⟩ : Arena).m_TotalSize ∧
      (⟨4136, 4141, 8, 5, true⟩ : Arena).SetPosBack 8 = none ∧
      ∃ a', (⟨4136, 4141, 8, 5, true⟩ : Arena).SetPosBack 2 = some a' ∧
        a'.m_AllocatedSize = 2 ∧ a'.m_Position = 4136 + 2 ∧ a'.m_TotalSize = 8 ∧
        a'.SetPosBack 2 = some a' := by
  obtain ⟨a', h1, h2, -, h4, h5, h6⟩ :=
    (setPosBack_fatal_iff_and_effect ⟨4136, 4141, 8, 5, true⟩ 2).2 (by decide)
  exact ⟨by decide,
    (setPosBack_fatal_iff_and_effect ⟨4136, 4141, 8, 5, true⟩ 8).1.2 (by decide),
    a', h1, h2, h4 (by decide), h5, h6⟩

/-- C8, counterexample: on a fresh arena of capacity 0 the call `SetPosBack(0)`
takes the fatal path, so it does not have the outcome of `Clear()`, which
returns. -/
theorem clear_differs_from_setPosBack_zero :
    (Arena.Create 4096 0).SetPosBack 0 = none ∧
      ¬ (Arena.Create 4096 0).SetPosBack 0 = some (Arena.Create 4096 0).Clear := by
  decide

/-- C8, amended: `Clear()` always returns and leaves `allocatedSize = 0`, the
cursor at `dataStart` and `totalSize` unchanged. `SetPosBack(0)` has that same
outcome on every arena with `totalSize > 0`; with `totalSize = 0` it takes the
fatal path. -/
theorem clear_eq_setPosBack_zero (a : Arena) (hd : a.m_Data < SIZE_RANGE) :
    (a.Clear.m_AllocatedSize = 0 ∧ a.Clear.m_Position = a.m_Data ∧
        a.Clear.m_TotalSize = a.m_TotalSize) ∧
      (0 < a.m_TotalSize → a.SetPosBack 0 = some a.Clear) ∧
      (a.m_TotalSize = 0 → a.SetPosBack 0 = none) := by
  refine ⟨⟨rfl, rfl, rfl⟩, ?_, ?_⟩
  · intro ht
    rw [setPosBack_of_lt a 0 ht, Nat.add_zero, Nat.mod_eq_of_lt hd]
    rfl
  · intro ht
    exact setPosBack_of_le a 0 (by rw [ht])

theorem clear_eq_setPosBack_zero_witness :
    (⟨4136, 4141, 8, 5, true⟩ : Arena).m_Data < SIZE_RANGE ∧
      0 < (⟨4136, 4141, 8, 5, true⟩ : Arena).m_TotalSize ∧
      (⟨4136, 4141, 8, 5, true⟩ : Arena).SetPosBack 0 =
        some (⟨4136, 4141, 8, 5, true⟩ : Arena).Clear :=
  ⟨by decide, by decide,
    (clear_eq_setPosBack_zero ⟨4136, 4141, 8, 5, true⟩ (by decide)).2.1 (by decide)⟩

/-! ## PushZero -/

theorem memset_inside (mem : Memory) (dst val : Nat) :
    ∀ n i : Nat, i < n → memset mem dst val n ((dst + i) % SIZE_RANGE) = val := by
  intro n
  induction n with
  | zero => intro i hi; omega
  | succ n ih =>
    intro i hi
    simp only [memset, Memory.write]
    by_cases heq : (dst + i) % SIZE_RANGE = (dst + n) % SIZE_RANGE
    · rw [if_pos heq]
    · rw [if_neg heq]
      have hne : i ≠ n := fun h => heq (by rw [h])
      exact ih i (by omega)

theorem memset_outside (mem : Memory) (dst val x : Nat) :
    ∀ n : Nat, (∀ i, i < n → x ≠ (dst + i) % SIZE_RANGE) →
      memset mem dst val n x = mem x := by
  intro n
  induction n with
  | zero => intro _; rfl
  | succ n ih =>
    intro hout
    simp only [memset, Memory.write]
    rw [if_neg (hout n (Nat.lt_succ_self n))]
    exact ih (fun i hi => hout i (Nat.lt_succ_of_lt hi))

/-- When `PushZero(size)` returns, `Push(size)` returns the same block and the
same arena, every byte of the block is zero and every byte outside the block
keeps its value. -/
theorem pushZero_effect (a a' : Arena) (mem mem' : Memory) (size block : Nat)
    (h : a.PushZero mem size = some (block, a', mem')) :
    a.Push size = some (block, a') ∧
      (∀ i, i < size → mem' (block + i) = 0) ∧
      (∀ x, x < block ∨ block + size ≤ x → mem' x = mem x) := by
  obtain ⟨hp, rfl, hlo, hhi, hfit⟩ := pushZero_eq_some h
  refine ⟨hp, ?_, ?_⟩
  · intro i hi
    have := memset_inside mem block 0 size i hi
    rwa [Nat.mod_eq_of_lt (by omega)] at this
  · intro x hx
    refine memset_outside mem block 0 x size ?_
    intro i hi
    simp only [SIZE_RANGE] at *
    omega

/-- On a reachable arena whose usable region lies in the address space, a push
whose size does not make `allocatedSize` wrap returns from `PushZero` exactly as
it returns from `Push`. -/
theorem pushZero_of_push (a a' : Arena) (mem : Memory) (size block : Nat)
    (hr : Reachable a) (hfit : a.m_Data + a.m_TotalSize ≤ SIZE_RANGE)
    (hnowrap : a.m_AllocatedSize + size < SIZE_RANGE)
    (hp : a.Push size = some (block, a')) :
    a.PushZero mem size = some (block, a', memset mem block 0 size) := by
  obtain ⟨hd, ht, hpos, ha⟩ := hr.wellFormed
  obtain ⟨hlt, hb, -⟩ := push_eq_some hp
  refine pushZero_of_within a a' mem size block hp ⟨?_, ?_, hfit⟩
  · simp only [SIZE_RANGE] at *
    omega
  · simp only [SIZE_RANGE] at *
    omega

/-- C9: the claim says that `PushZero(size)` has the success condition of
`Push(size)`. On the arena reached by `Create(10); Push(5)` the call
`Push(2^64 - 3)` returns, because `5 + (2^64 - 3)` wraps to 2 and `2 < 10`
passes the assertion; `PushZero(2^64 - 3)` passes the same assertion and then
runs `memset` over `2^64 - 3` bytes from offset 5 of a region of 10 bytes, so it
does not return. -/
theorem pushZero_does_not_return_where_push_returns :
    (Arena.Create 4096 10).Push 5 = some (4136, ⟨4136, 4141, 10, 5, true⟩) ∧
      (⟨4136, 4141, 10, 5, true⟩ : Arena).Push (SIZE_RANGE - 3) =
        some (4141, ⟨4136, 4138, 10, 2, true⟩) ∧
      ¬ (4141 + (SIZE_RANGE - 3) ≤
        (⟨4136, 4141, 10, 5, true⟩ : Arena).m_Data +
          (⟨4136, 4141, 10, 5, true⟩ : Arena).m_TotalSize) ∧
      ((⟨4136, 4141, 10, 5, true⟩ : Arena).PushZero (fun _ => 7) (SIZE_RANGE - 3)).isNone =
        true ∧
      ((Arena.Create 4096 10).PushZero (fun _ => 7) 5).map (fun r => (r.1, r.2.1)) =
        some (4136, ⟨4136, 4141, 10, 5, true⟩) := by
  decide

/-! ## ScratchSpace -/

/-- C10: on every reachable arena and for every `N` whose push returns,
constructing a `ScratchSpace`, pushing `N` bytes and calling `Reset()` returns
and leaves the arena exactly as it was at construction, so `allocatedSize` and
the cursor have their values of that moment; a further `Reset()` leaves it
there. -/
theorem scratchSpace_reset_restores (a a1 : Arena) (n block : Nat) (hr : Reachable a)
    (hp : a.Push n = some (block, a1)) :
    ∃ a2, (ScratchSpace.ScratchSpace a).Reset a1 = some (ScratchSpace.ScratchSpace a, a2) ∧
      a2.m_AllocatedSize = a.m_AllocatedSize ∧ a2.m_Position = a.m_Position ∧ a2 = a ∧
      (ScratchSpace.ScratchSpace a).Reset a2 = some (ScratchSpace.ScratchSpace a, a2) := by
  obtain ⟨hd, ht, hpos, ha⟩ := hr.wellFormed
  obtain ⟨hlt, -, rfl⟩ := push_eq_some hp
  have hall : a.m_AllocatedSize < a.m_TotalSize := by omega
  have hback : ∀ b : Arena, b.m_Data = a.m_Data → b.m_TotalSize = a.m_TotalSize →
      b.m_IsSelfAllocated = a.m_IsSelfAllocated →
      (ScratchSpace.ScratchSpace a).Reset b = some (ScratchSpace.ScratchSpace a, a) := by
    intro b h1 h2 h3
    simp only [ScratchSpace.Reset, ScratchSpace.ScratchSpace, Arena.GetPos]
    rw [setPosBack_of_lt b a.m_AllocatedSize (by rw [h2]; exact hall), h1, h2, h3, ← hpos]
    rfl
  exact ⟨a, hback _ rfl rfl rfl, rfl, rfl, rfl, hback a rfl rfl rfl⟩

theorem scratchSpace_reset_restores_witness :
    Reachable (⟨4136, 4139, 8, 3, true⟩ : Arena) ∧
      (⟨4136, 4139, 8, 3, true⟩ : Arena).Push 4 = some (4139, ⟨4136, 4143, 8, 7, true⟩) ∧
      ∃ a2, (ScratchSpace.ScratchSpace ⟨4136, 4139, 8, 3, true⟩).Reset
          ⟨4136, 4143, 8, 7, true⟩ =
          some (ScratchSpace.ScratchSpace ⟨4136, 4139, 8, 3, true⟩, a2) ∧
        a2.m_AllocatedSize = 3 ∧ a2.m_Position = 4139 ∧ a2 = ⟨4136, 4139, 8, 3, true⟩ ∧
        (ScratchSpace.ScratchSpace ⟨4136, 4139, 8, 3, true⟩).Reset a2 =
          some (ScratchSpace.ScratchSpace ⟨4136, 4139, 8, 3, true⟩, a2) :=
  have hr : Reachable (⟨4136, 4139, 8, 3, true⟩ : Arena) :=
    Reachable.push (Reachable.create 4096 8 (by decide))
      (by decide : (Arena.Create 4096 8).Push 3 = some (4136, ⟨4136, 4139, 8, 3, true⟩))
  have hp : (⟨4136, 4139, 8, 3, true⟩ : Arena).Push 4 =
      some (4139, ⟨4136, 4143, 8, 7, true⟩) := by decide
  ⟨hr, hp, scratchSpace_reset_restores _ _ 4 4139 hr hp⟩

/-! ## PoolArenaAllocator -/

theorem loadBytes_write_beyond (mem : Memory) (src b n : Nat) (hn : n < SIZE_RANGE) :
    ∀ k : Nat, k ≤ n →
      loadBytes (mem.write ((src + n) % SIZE_RANGE) b) src k = loadBytes mem src k := by
  intro k
  induction k with
  | zero => intro _; rfl
  | succ k ih =>
    intro hk
    have hne : (src + k) % SIZE_RANGE ≠ (src + n) % SIZE_RANGE := by
      simp only [SIZE_RANGE] at *
      omega
    simp only [loadBytes, Memory.write, if_neg hne]
    rw [← ih (by omega)]

theorem loadBytes_storeBytes (mem : Memory) (dst v : Nat) :
    ∀ n : Nat, n < SIZE_RANGE → loadBytes (storeBytes mem dst v n) dst n = v % 256 ^ n := by
  intro n
  induction n with
  | zero => intro _; simp [loadBytes, Nat.mod_one]
  | succ n ih =>
    intro hn
    rw [storeBytes, loadBytes, loadBytes_write_beyond _ _ _ _ (by omega) n (le_refl n),
      ih (by omega), Nat.mod_pow_succ]
    simp only [Memory.write, if_pos]
    rw [Nat.mul_comm]

/-- A pointer that was stored is the pointer that is loaded. -/
theorem loadPtr_storePtr (mem : Memory) (dst v : Nat) (hv : v < SIZE_RANGE) :
    loadPtr (storePtr mem dst v) dst = v := by
  unfold loadPtr storePtr
  rw [loadBytes_storeBytes mem dst v 8 (by decide)]
  exact Nat.mod_eq_of_lt hv

/-- C11: with a non-empty free list `Allocate` returns the free-list head, makes
the head's `Next` the new head and leaves the arena (so `allocatedSize` and the
cursor) as it is; with an empty free list it pushes one zeroed block of
`sizeof(Node)` bytes from the arena and returns it. `Free` makes the freed slot
the head, so the next `Allocate` returns the most recently freed slot and the
list is back at its head of before: allocate A, free A, allocate B gives
`B = A`. -/
theorem pool_allocate_reuses_most_recently_freed (layout : NodeLayout)
    (construct : Nat → Memory → Memory) (p : PoolArenaAllocator) (arena : Arena)
    (mem : Memory) :
    (p.m_FirstFree ≠ 0 → ∃ mem',
        p.Allocate layout construct arena mem =
          some (p.m_FirstFree,
            ⟨loadPtr mem ((p.m_FirstFree + layout.offsetofNext) % SIZE_RANGE),
              (p.m_AllocationsCount + 1) % SIZE_RANGE⟩, arena, mem')) ∧
      (p.m_FirstFree = 0 →
        p.Allocate layout construct arena mem =
          (arena.PushZero mem layout.sizeofNode).map
            (fun r => (r.1, ⟨0, (p.m_AllocationsCount + 1) % SIZE_RANGE⟩, r.2.1,
              construct r.1 r.2.2))) ∧
      (∀ value : Nat, value ≠ 0 →
        (p.Free layout mem value).1.m_FirstFree = value ∧
        ∃ p' mem',
          (p.Free layout mem value).1.Allocate layout construct arena
              (p.Free layout mem value).2 = some (value, p', arena, mem') ∧
          (p.m_FirstFree < SIZE_RANGE → p'.m_FirstFree = p.m_FirstFree)) ∧
      (∀ (A : Nat) (p1 : PoolArenaAllocator) (arena1 : Arena) (mem1 : Memory),
        p.Allocate layout construct arena mem = some (A, p1, arena1, mem1) → A ≠ 0 →
        ∃ p2 mem2,
          (p1.Free layout mem1 A).1.Allocate layout construct arena1
            (p1.Free layout mem1 A).2 = some (A, p2, arena1, mem2)) := by
  have hreuse : ∀ (q : PoolArenaAllocator) (value : Nat) (a : Arena) (m : Memory),
      value ≠ 0 → ∃ p' mem',
        (q.Free layout m value).1.Allocate layout construct a (q.Free layout m value).2 =
          some (value, p', a, mem') ∧
        (q.m_FirstFree < SIZE_RANGE → p'.m_FirstFree = q.m_FirstFree) := by
    intro q value a m hv
    have hcall : (q.Free layout m value).1.Allocate layout construct a
        (q.Free layout m value).2 =
        some (value,
          ⟨loadPtr (storePtr m ((value + layout.offsetofNext) % SIZE_RANGE) q.m_FirstFree)
              ((value + layout.offsetofNext) % SIZE_RANGE),
            ((q.m_AllocationsCount + SIZE_RANGE - 1) % SIZE_RANGE + 1) % SIZE_RANGE⟩, a,
          construct value
            (storePtr (storePtr m ((value + layout.offsetofNext) % SIZE_RANGE) q.m_FirstFree)
              ((value + layout.offsetofNext) % SIZE_RANGE) 0)) := by
      simp only [PoolArenaAllocator.Allocate, PoolArenaAllocator.Free]
      rw [if_pos hv]
    exact ⟨_, _, hcall, fun hq => loadPtr_storePtr m _ _ hq⟩
  refine ⟨?_, ?_, ?_, ?_⟩
  · intro h
    refine ⟨construct p.m_FirstFree
      (storePtr mem ((p.m_FirstFree + layout.offsetofNext) % SIZE_RANGE) 0), ?_⟩
    simp only [PoolArenaAllocator.Allocate]
    rw [if_pos h]
  · intro h
    simp only [PoolArenaAllocator.Allocate, Arena.PushStructZero]
    have hn : ¬ p.m_FirstFree ≠ 0 := fun hne => hne h
    rw [if_neg hn, h]
    cases arena.PushZero mem layout.sizeofNode <;> rfl
  · intro value hv
    exact ⟨rfl, hreuse p value arena mem hv⟩
  · intro A p1 arena1 mem1 _ hA
    obtain ⟨p2, mem2, h2, -⟩ := hreuse p1 A arena1 mem1 hA
    exact ⟨p2, mem2, h2⟩

theorem pool_allocate_reuses_most_recently_freed_witness :
    (4136 : Nat) ≠ 0 ∧
      (⟨0, 1⟩ : PoolArenaAllocator).m_FirstFree < SIZE_RANGE ∧
      ∃ p' mem',
        ((⟨0, 1⟩ : PoolArenaAllocator).Free ⟨16, 8⟩ (fun _ => 7) 4136).1.Allocate ⟨16, 8⟩
            (fun node m => storeBytes m node 42 8) (Arena.Create 4096 64)
            ((⟨0, 1⟩ : PoolArenaAllocator).Free ⟨16, 8⟩ (fun _ => 7) 4136).2 =
          some (4136, p', Arena.Create 4096 64, mem') ∧
        p'.m_FirstFree = 0 := by
  obtain ⟨-, p', mem', h1, h2⟩ :=
    (pool_allocate_reuses_most_recently_freed ⟨16, 8⟩ (fun node m => storeBytes m node 42 8)
      ⟨0, 1⟩ (Arena.Create 4096 64) (fun _ => 7)).2.2.1 4136 (by decide)
  exact ⟨by decide, by decide, p', mem', h1, h2 (by decide)⟩

/-! ## StringBuilder -/

theorem readBytes_length (mem : Memory) (src n : Nat) : (readBytes mem src n).length = n := by
  simp [readBytes]

theorem readBytes_eq_iff (mem : Memory) (src : Nat) (l : List Nat) :
    readBytes mem src l.length = l ↔
      ∀ i : Nat, i < l.length → mem ((src + i) % SIZE_RANGE) = l.getD i 0 := by
  constructor
  · intro h i hi
    have h' : (readBytes mem src l.length)[i]? = l[i]? := by rw [h]
    rw [List.getD_eq_getElem _ _ hi]
    simpa [readBytes, hi] using h'
  · intro h
    apply List.ext_get (readBytes_length mem src l.length)
    intro i h1 h2
    have := h i h2
    rw [List.getD_eq_getElem _ _ h2] at this
    simp only [List.get_eq_getElem]
    rw [← this]
    simp [readBytes]

theorem memcpy_inside (mem : Memory) (dst : Nat) (src : List Nat) :
    ∀ n i : Nat, n ≤ SIZE_RANGE → i < n →
      memcpy mem dst src n ((dst + i) % SIZE_RANGE) = src.getD i 0 := by
  intro n
  induction n with
  | zero => intro i _ hi; omega
  | succ n ih =>
    intro i hn hi
    simp only [memcpy, Memory.write]
    by_cases heq : i = n
    · rw [heq, if_pos rfl]
    · have hne : (dst + i) % SIZE_RANGE ≠ (dst + n) % SIZE_RANGE := by
        simp only [SIZE_RANGE] at *
        omega
      rw [if_neg hne]
      exact ih i (by omega) (by omega)

theorem memcpy_outside (mem : Memory) (dst x : Nat) (src : List Nat) :
    ∀ n : Nat, (∀ i, i < n → x ≠ (dst + i) % SIZE_RANGE) →
      memcpy mem dst src n x = mem x := by
  intro n
  induction n with
  | zero => intro _; rfl
  | succ n ih =>
    intro hout
    simp only [memcpy, Memory.write]
    rw [if_neg (hout n (Nat.lt_succ_self n))]
    exact ih (fun i hi => hout i (Nat.lt_succ_of_lt hi))

theorem stringBuilder_push_eq_some {sb sb1 : StringBuilder} {mem mem1 : Memory}
    {value : List Nat} (h : sb.Push mem value = some (sb1, mem1)) :
    (sb.m_Position + value.length + 1) % SIZE_RANGE < sb.m_Size ∧
      sb1 = ⟨sb.m_Result, (sb.m_Position + value.length) % SIZE_RANGE, sb.m_Size⟩ ∧
      mem1 = memcpy mem ((sb.m_Result + sb.m_Position) % SIZE_RANGE) (value ++ [0])
        (value.length + 1) := by
  unfold StringBuilder.Push ARWH_CORE_ASSERT at h
  by_cases hlt : (sb.m_Position + value.length + 1) % SIZE_RANGE < sb.m_Size
  · simp [hlt] at h
    exact ⟨hlt, h.1.symm, h.2.symm⟩
  · simp [hlt] at h

theorem stringBuilder_push_of_lt (sb : StringBuilder) (mem : Memory) (value : List Nat)
    (h : (sb.m_Position + value.length + 1) % SIZE_RANGE < sb.m_Size) :
    sb.Push mem value =
      some (⟨sb.m_Result, (sb.m_Position + value.length) % SIZE_RANGE, sb.m_Size⟩,
        memcpy mem ((sb.m_Result + sb.m_Position) % SIZE_RANGE) (value ++ [0])
          (value.length + 1)) := by
  unfold StringBuilder.Push ARWH_CORE_ASSERT
  simp [h]

theorem stringBuilder_push_of_le (sb : StringBuilder) (mem : Memory) (value : List Nat)
    (h : sb.m_Size ≤ (sb.m_Position + value.length + 1) % SIZE_RANGE) :
    sb.Push mem value = none := by
  unfold StringBuilder.Push ARWH_CORE_ASSERT
  simp [Nat.not_lt.mpr h]

/-- An append that returns extends the text held by the builder, provided the
appended text and the reserved block fit the address space together. -/
theorem holds_push {sb sb1 : StringBuilder} {mem mem1 : Memory} {s text : List Nat}
    (hs : Holds sb mem s) (hfit : text.length + 1 + sb.m_Size ≤ SIZE_RANGE)
    (h : sb.Push mem text = some (sb1, mem1)) :
    Holds sb1 mem1 (s ++ text) ∧ sb1.m_Result = sb.m_Result ∧ sb1.m_Size = sb.m_Size := by
  obtain ⟨hpos, hread, hsize⟩ := hs
  obtain ⟨hlt, rfl, rfl⟩ := stringBuilder_push_eq_some h
  have hread' := (readBytes_eq_iff mem sb.Result (s ++ [0])).mp
    (by rw [List.length_append, List.length_singleton]; exact hread)
  rw [hpos] at hlt
  have hnowrap : s.length + text.length + 1 < sb.m_Size := by
    simp only [SIZE_RANGE] at *
    omega
  refine ⟨⟨?_, ?_, ?_⟩, rfl, rfl⟩
  · simp only [hpos, List.length_append]
    simp only [SIZE_RANGE] at *
    omega
  · have hlen : (s ++ text).length + 1 = (s ++ (text ++ [0])).length := by
      simp only [List.length_append, List.length_singleton]
      omega
    rw [hlen, ← List.append_assoc]
    rw [List.append_assoc, readBytes_eq_iff]
    intro i hi
    simp only [List.length_append, List.length_singleton] at hi
    simp only [StringBuilder.Result] at *
    by_cases hlo : i < s.length
    · rw [List.getD_append _ _ _ _ hlo, memcpy_outside]
      · have := hread' i (by simp only [List.length_append, List.length_singleton]; omega)
        rw [List.getD_append _ _ _ _ hlo] at this
        exact this
      · intro j hj
        simp only [SIZE_RANGE] at *
        omega
    · rw [List.getD_append_right _ _ _ _ (Nat.not_lt.mp hlo)]
      have haddr : (sb.m_Result + i) % SIZE_RANGE =
          ((sb.m_Result + sb.m_Position) % SIZE_RANGE + (i - s.length)) % SIZE_RANGE := by
        simp only [SIZE_RANGE] at *
        omega
      rw [haddr]
      exact memcpy_inside mem _ _ (text.length + 1) (i - s.length)
        (by simp only [SIZE_RANGE] at *; omega) (by omega)
  · simp only [List.length_append]
    omega

theorem holds_terminator {sb : StringBuilder} {mem : Memory} {s : List Nat}
    (hs : Holds sb mem s) : mem ((sb.Result + sb.m_Position) % SIZE_RANGE) = 0 := by
  obtain ⟨hpos, hread, -⟩ := hs
  have h := (readBytes_eq_iff mem sb.Result (s ++ [0])).mp
    (by rw [List.length_append, List.length_singleton]; exact hread) s.length
    (by simp only [List.length_append, List.length_singleton]; omega)
  rw [List.getD_append_right _ _ _ _ (le_refl _), Nat.sub_self] at h
  rw [hpos]
  exact h

/-- The constructor leaves a builder that holds the empty text. -/
theorem holds_construct {arena arena1 : Arena} {mem mem1 : Memory} {size : Nat}
    {sb : StringBuilder}
    (h : StringBuilder.StringBuilder arena mem size = some (sb, arena1, mem1)) :
    Holds sb mem1 [] ∧ sb.m_Size = size ∧ arena.Push size = some (sb.m_Result, arena1) := by
  unfold StringBuilder.StringBuilder at h
  cases hp : arena.Push size with
  | none => simp [hp] at h
  | some r =>
    obtain ⟨block, a1⟩ := r
    cases hq : StringBuilder.Push ⟨block, 0, size⟩ mem [] with
    | none => simp [hp, hq] at h
    | some q =>
      obtain ⟨sb0, m0⟩ := q
      simp [hp, hq] at h
      obtain ⟨rfl, rfl, rfl⟩ := h
      obtain ⟨hlt, rfl, rfl⟩ := stringBuilder_push_eq_some hq
      simp only [List.length_nil, List.nil_append] at hlt
      refine ⟨⟨?_, ?_, ?_⟩, rfl, rfl⟩
      · simp only [SIZE_RANGE, List.length_nil]
      · have := (readBytes_eq_iff
          (memcpy mem ((block + 0) % SIZE_RANGE) [0] (0 + 1)) block [0]).mpr (by
            intro i hi
            simp only [List.length_singleton] at hi
            have hi0 : i = 0 := by omega
            subst hi0
            have := memcpy_inside mem ((block + 0) % SIZE_RANGE) [0] 1 0 (by decide) (by decide)
            simp only [Nat.add_zero, Nat.mod_mod] at this ⊢
            exact this)
        simpa [StringBuilder.Result] using this
      · simp only [SIZE_RANGE] at hlt
        simp only [List.length_nil]
        omega

/-- A run of appends that all return extends the held text by the concatenation
of the appended texts. -/
theorem holds_pushTexts (texts : List (List Nat)) :
    ∀ (sb sb2 : StringBuilder) (mem mem2 : Memory) (s : List Nat), Holds sb mem s →
      (∀ t ∈ texts, t.length + 1 + sb.m_Size ≤ SIZE_RANGE) →
      pushTexts sb mem texts = some (sb2, mem2) →
      Holds sb2 mem2 (s ++ texts.flatten) ∧ sb2.m_Result = sb.m_Result ∧
        sb2.m_Size = sb.m_Size := by
  induction texts with
  | nil =>
    intro sb sb2 mem mem2 s hs _ h
    simp only [pushTexts, Option.some.injEq, Prod.mk.injEq] at h
    obtain ⟨rfl, rfl⟩ := h
    simpa using hs
  | cons text rest ih =>
    intro sb sb2 mem mem2 s hs hfit h
    rw [pushTexts] at h
    cases hp : sb.Push mem text with
    | none => simp [hp] at h
    | some r =>
      obtain ⟨sb1, mem1⟩ := r
      simp only [hp, Option.bind_eq_bind, Option.some_bind] at h
      obtain ⟨h1, hres, hsz⟩ := holds_push hs (hfit text (List.mem_cons_self _ _)) hp
      obtain ⟨h2, hres2, hsz2⟩ := ih sb1 sb2 mem1 mem2 (s ++ text) h1
        (fun t ht => by rw [hsz]; exact hfit t (List.mem_cons_of_mem _ ht)) h
      refine ⟨?_, hres2.trans hres, hsz2.trans hsz⟩
      simpa [List.append_assoc] using h2

/-- C12: the constructor leaves a builder that holds the empty text. On a builder
that holds a text, every append that returns starts its copy on the previous
terminator, writes the appended text followed by a new terminator, and moves the
write cursor forward by the length of the text, the new terminator being at the
new cursor. After a sequence of appends that all return, the cursor is the sum
of the lengths and the bytes at `Result()` are the concatenation of the texts in
order followed by the terminator. Each text is assumed to fit the address space
together with the reserved block. -/
theorem stringBuilder_result_is_concatenation :
    (∀ (arena arena1 : Arena) (mem mem1 : Memory) (size : Nat) (sb : StringBuilder),
        StringBuilder.StringBuilder arena mem size = some (sb, arena1, mem1) →
        Holds sb mem1 [] ∧ sb.m_Size = size) ∧
      (∀ (sb sb1 : StringBuilder) (mem mem1 : Memory) (s text : List Nat),
        Holds sb mem s → text.length + 1 + sb.m_Size ≤ SIZE_RANGE →
        sb.Push mem text = some (sb1, mem1) →
        mem ((sb.Result + sb.m_Position) % SIZE_RANGE) = 0 ∧
        readBytes mem1 ((sb.Result + sb.m_Position) % SIZE_RANGE) (text.length + 1) =
          text ++ [0] ∧
        sb1.m_Position = sb.m_Position + text.length ∧
        mem1 ((sb1.Result + sb1.m_Position) % SIZE_RANGE) = 0 ∧
        Holds sb1 mem1 (s ++ text)) ∧
      (∀ (sb sb2 : StringBuilder) (mem mem2 : Memory) (s : List Nat)
        (texts : List (List Nat)),
        Holds sb mem s → (∀ t ∈ texts, t.length + 1 + sb.m_Size ≤ SIZE_RANGE) →
        pushTexts sb mem texts = some (sb2, mem2) →
        sb2.Result = sb.Result ∧
        sb2.m_Position = s.length + (texts.map List.length).sum ∧
        readBytes mem2 sb2.Result ((s ++ texts.flatten).length + 1) =
          s ++ texts.flatten ++ [0]) := by
  refine ⟨?_, ?_, ?_⟩
  · intro arena arena1 mem mem1 size sb h
    exact ⟨(holds_construct h).1, (holds_construct h).2.1⟩
  · intro sb sb1 mem mem1 s text hs hfit h
    obtain ⟨h1, -, -⟩ := holds_push hs hfit h
    obtain ⟨-, hsb1, hmem1⟩ := stringBuilder_push_eq_some h
    refine ⟨holds_terminator hs, ?_, ?_, holds_terminator h1, h1⟩
    · have hlen : text.length + 1 = (text ++ [0]).length := by
        rw [List.length_append, List.length_singleton]
      rw [hmem1, hlen, readBytes_eq_iff]
      intro i hi
      rw [← hlen] at hi ⊢
      exact memcpy_inside mem _ _ (text.length + 1) i (by omega) hi
    · rw [h1.1, hs.1, List.length_append]
  · intro sb sb2 mem mem2 s texts hs hfit h
    obtain ⟨h2, hres, -⟩ := holds_pushTexts texts sb sb2 mem mem2 s hs hfit h
    refine ⟨hres, ?_, h2.2.1⟩
    rw [h2.1, List.length_append, List.length_flatten]

theorem stringBuilder_result_is_concatenation_witness :
    StringBuilder.StringBuilder (Arena.Create 4096 64) (fun _ => 7) 16 =
        some (⟨4136, 0, 16⟩, ⟨4136, 4152, 64, 16, true⟩, memcpy (fun _ => 7) 4136 [0] 1) ∧
      ∃ sb2 mem2,
        pushTexts ⟨4136, 0, 16⟩ (memcpy (fun _ => 7) 4136 [0] 1) [[97, 98], [99, 100]] =
          some (sb2, mem2) ∧
        sb2.Result = 4136 ∧ sb2.m_Position = 4 ∧
        readBytes mem2 sb2.Result 5 = [97, 98, 99, 100, 0] := by
  have hc : StringBuilder.StringBuilder (Arena.Create 4096 64) (fun _ => 7) 16 =
      some (⟨4136, 0, 16⟩, ⟨4136, 4152, 64, 16, true⟩, memcpy (fun _ => 7) 4136 [0] 1) := rfl
  have hH := (stringBuilder_result_is_concatenation.1 _ _ _ _ _ _ hc).1
  have hsome : (pushTexts ⟨4136, 0, 16⟩ (memcpy (fun _ => 7) 4136 [0] 1)
      [[97, 98], [99, 100]]).isSome = true := by decide
  obtain ⟨r, hp⟩ := Option.isSome_iff_exists.mp hsome
  obtain ⟨sb2, mem2⟩ := r
  obtain ⟨h1, h2, h3⟩ := stringBuilder_result_is_concatenation.2.2 _ _ _ _ [] _ hH
    (by decide) hp
  exact ⟨hc, sb2, mem2, hp, h1, h2, h3⟩

theorem stringBuilder_push_eq_none_iff (sb : StringBuilder) (mem : Memory)
    (value : List Nat) :
    sb.Push mem value = none ↔
      sb.m_Size ≤ (sb.m_Position + value.length + 1) % SIZE_RANGE := by
  constructor
  · intro h
    by_contra hlt
    rw [stringBuilder_push_of_lt sb mem value (Nat.not_le.mp hlt)] at h
    cases h
  · exact stringBuilder_push_of_le sb mem value

/-- C13: the claim says that an append with
`writeCursor + length(text) + 1 == capacity` succeeds and that a builder of
capacity 1 can be constructed. A builder of capacity 16 is constructed with its
cursor at 0, yet the append of 15 characters (`0 + 15 + 1 = 16`) takes the fatal
path; and with capacity 1 the arena push returns but the constructor's own
append of the empty text (`0 + 0 + 1 = 1`) takes the fatal path. The assertion
of `StringBuilder::Push` is the strict `m_Position + length + 1 < m_Size`. -/
theorem stringBuilder_exact_fit_is_fatal :
    (StringBuilder.StringBuilder (Arena.Create 4096 64) (fun _ => 7) 16).map (fun r => r.1) =
        some ⟨4136, 0, 16⟩ ∧
      (⟨4136, 0, 16⟩ : StringBuilder).m_Position + (List.replicate 15 97).length + 1 =
        (⟨4136, 0, 16⟩ : StringBuilder).m_Size ∧
      ((⟨4136, 0, 16⟩ : StringBuilder).Push (fun _ => 7) (List.replicate 15 97)).isNone = true ∧
      ((Arena.Create 4096 64).Push 1).isSome = true ∧
      (StringBuilder.StringBuilder (Arena.Create 4096 64) (fun _ => 7) 1).isNone = true := by
  decide

/-! ## Ownership and Dispose -/

/-- C14: an arena from `Create(size)` has the owning flag set and `Dispose` passes
it to `free`; an arena from `Create(buffer, bufferSize)` has the flag clear and
`Dispose` leaves the heap as it is; in general `Dispose` releases exactly when
the flag is set. No `Push`, `PushZero`, `Pop`, `SetPosBack` or `Clear` changes the
flag. -/
theorem dispose_releases_iff_self_owning :
    (∀ (buffer size : Nat) (heap : Heap),
        (Arena.Create buffer size).m_IsSelfAllocated = true ∧
        Arena.Dispose heap buffer (Arena.Create buffer size) = heap.free buffer) ∧
      (∀ (buffer bufferSize : Nat) (heap : Heap),
        (Arena.Create_buffer buffer bufferSize).m_IsSelfAllocated = false ∧
        Arena.Dispose heap buffer (Arena.Create_buffer buffer bufferSize) = heap) ∧
      (∀ (heap : Heap) (arena : Nat) (a : Arena),
        (a.m_IsSelfAllocated = true → Arena.Dispose heap arena a = heap.free arena) ∧
        (a.m_IsSelfAllocated = false → Arena.Dispose heap arena a = heap)) ∧
      (∀ (a a' : Arena) (size block : Nat), a.Push size = some (block, a') →
        a'.m_IsSelfAllocated = a.m_IsSelfAllocated) ∧
      (∀ (a a' : Arena) (mem mem' : Memory) (size block : Nat),
        a.PushZero mem size = some (block, a', mem') →
        a'.m_IsSelfAllocated = a.m_IsSelfAllocated) ∧
      (∀ (a : Arena) (size : Nat), (a.Pop size).m_IsSelfAllocated = a.m_IsSelfAllocated) ∧
      (∀ (a a' : Arena) (pos : Nat), a.SetPosBack pos = some a' →
        a'.m_IsSelfAllocated = a.m_IsSelfAllocated) ∧
      (∀ a : Arena, a.Clear.m_IsSelfAllocated = a.m_IsSelfAllocated) := by
  have hpush : ∀ (a a' : Arena) (size block : Nat), a.Push size = some (block, a') →
      a'.m_IsSelfAllocated = a.m_IsSelfAllocated := by
    intro a a' size block h
    obtain ⟨-, -, rfl⟩ := push_eq_some h
    rfl
  refine ⟨?_, ?_, ?_, hpush, ?_, ?_, ?_, ?_⟩
  · intro buffer size heap
    exact ⟨rfl, rfl⟩
  · intro buffer bufferSize heap
    exact ⟨rfl, rfl⟩
  · intro heap arena a
    refine ⟨?_, ?_⟩
    · intro h
      simp [Arena.Dispose, h]
    · intro h
      simp [Arena.Dispose, h]
  · intro a a' mem mem' size block h
    exact hpush a a' size block (pushZero_eq_some h).1
  · intro a size
    rfl
  · intro a a' pos h
    obtain ⟨-, rfl⟩ := setPosBack_eq_some h
    rfl
  · intro a
    rfl

theorem dispose_releases_iff_self_owning_witness :
    Arena.Dispose ⟨[4096, 8192]⟩ 4096 (Arena.Create 4096 64) = ⟨[8192]⟩ ∧
      Arena.Dispose ⟨[4096, 8192]⟩ 12288 (Arena.Create_buffer 12288 104) = ⟨[4096, 8192]⟩ ∧
      (⟨4136, 4139, 64, 3, true⟩ : Arena).m_IsSelfAllocated =
        (Arena.Create 4096 64).m_IsSelfAllocated ∧
      (⟨12328, 12328, 64, 0, false⟩ : Arena).m_IsSelfAllocated =
        (⟨12328, 12331, 64, 3, false⟩ : Arena).m_IsSelfAllocated :=
  ⟨(dispose_releases_iff_self_owning.2.2.1 ⟨[4096, 8192]⟩ 4096 (Arena.Create 4096 64)).1
      (by decide),
    (dispose_releases_iff_self_owning.2.2.1 ⟨[4096, 8192]⟩ 12288
      (Arena.Create_buffer 12288 104)).2 (by decide),
    dispose_releases_iff_self_owning.2.2.2.1 (Arena.Create 4096 64) _ 3 4136 (by decide),
    dispose_releases_iff_self_owning.2.2.2.2.2.2.1 ⟨12328, 12331, 64, 3, false⟩ _ 0
      (by decide)⟩

/-! ## Scratch singletons -/

theorem bumpMalloc_contract : MallocContract bumpMalloc := by
  intro h n
  refine ⟨?_, ?_⟩
  · simp only [bumpMalloc]
    omega
  · intro hmem
    have := List.single_le_sum (fun x _ => Nat.zero_le x) _ hmem
    simp only [bumpMalloc] at this
    omega

/-- The state after `InitScratch` on a thread whose scratch pointers are both
null, with `temp` and `persistent` the two addresses that `malloc` returned. -/
theorem initScratch_of_null (malloc : Heap → Nat → Nat) (t : ThreadState)
    (h1 : t.s_TempScratch = 0) (h2 : t.s_PersistentScratch = 0) :
    Arena.InitScratch malloc t =
      ⟨malloc t.heap ((sizeofArena + ScratchSize) % SIZE_RANGE),
        malloc ⟨malloc t.heap ((sizeofArena + ScratchSize) % SIZE_RANGE) :: t.heap.live⟩
          ((sizeofArena + ScratchSize) % SIZE_RANGE),
        ⟨malloc ⟨malloc t.heap ((sizeofArena + ScratchSize) % SIZE_RANGE) :: t.heap.live⟩
            ((sizeofArena + ScratchSize) % SIZE_RANGE) ::
          malloc t.heap ((sizeofArena + ScratchSize) % SIZE_RANGE) :: t.heap.live⟩,
        (malloc ⟨malloc t.heap ((sizeofArena + ScratchSize) % SIZE_RANGE) :: t.heap.live⟩
            ((sizeofArena + ScratchSize) % SIZE_RANGE),
          Arena.Create
            (malloc ⟨malloc t.heap ((sizeofArena + ScratchSize) % SIZE_RANGE) :: t.heap.live⟩
              ((sizeofArena + ScratchSize) % SIZE_RANGE)) ScratchSize) ::
          (malloc t.heap ((sizeofArena + ScratchSize) % SIZE_RANGE),
            Arena.Create (malloc t.heap ((sizeofArena + ScratchSize) % SIZE_RANGE))
              ScratchSize) :: t.objects⟩ := by
  simp only [Arena.InitScratch, Arena.Create_malloc]
  rw [if_pos ⟨h1, h2⟩]

theorem initScratch_of_ne_null (malloc : Heap → Nat → Nat) (t : ThreadState)
    (h : t.s_TempScratch ≠ 0 ∨ t.s_PersistentScratch ≠ 0) :
    Arena.InitScratch malloc t = t := by
  simp only [Arena.InitScratch]
  rw [if_neg]
  intro hboth
  rcases h with h | h
  · exact h hboth.1
  · exact h hboth.2

/-- C15: on a thread that has run nothing, both getters return null. The first
`InitScratch()` sets them to two distinct non-null arenas, each created by
`Create(ScratchSize)` with capacity 1 MiB and `allocatedSize` 0, and allocates
exactly those two blocks. Every later `InitScratch()` leaves the whole state, and
with it both getters, as it is. `malloc` is assumed to return a block that is
neither null nor live. -/
theorem scratch_singletons_created_once (malloc : Heap → Nat → Nat)
    (hm : MallocContract malloc) (heap : Heap) (objects : List (Nat × Arena)) :
    Arena.GetTempScratch (ThreadState.start heap objects) = 0 ∧
      Arena.GetPersistentScratch (ThreadState.start heap objects) = 0 ∧
      ∃ temp persistent : Nat,
        Arena.GetTempScratch (Arena.InitScratch malloc (ThreadState.start heap objects)) =
          temp ∧
        Arena.GetPersistentScratch
          (Arena.InitScratch malloc (ThreadState.start heap objects)) = persistent ∧
        temp ≠ 0 ∧ persistent ≠ 0 ∧ temp ≠ persistent ∧
        (Arena.InitScratch malloc (ThreadState.start heap objects)).objects.lookup temp =
          some (Arena.Create temp ScratchSize) ∧
        (Arena.InitScratch malloc (ThreadState.start heap objects)).objects.lookup persistent =
          some (Arena.Create persistent ScratchSize) ∧
        (Arena.Create temp ScratchSize).m_TotalSize = 1048576 ∧
        (Arena.Create temp ScratchSize).m_AllocatedSize = 0 ∧
        (Arena.Create persistent ScratchSize).m_TotalSize = 1048576 ∧
        (Arena.Create persistent ScratchSize).m_AllocatedSize = 0 ∧
        (Arena.InitScratch malloc (ThreadState.start heap objects)).heap.live =
          persistent :: temp :: heap.live ∧
        (Arena.InitScratch malloc (ThreadState.start heap objects)).objects =
          (persistent, Arena.Create persistent ScratchSize) ::
            (temp, Arena.Create temp ScratchSize) :: objects ∧
        ∀ n : Nat,
          (Arena.InitScratch malloc)^[n]
              (Arena.InitScratch malloc (ThreadState.start heap objects)) =
            Arena.InitScratch malloc (ThreadState.start heap objects) := by
  have htemp := hm heap ((sizeofArena + ScratchSize) % SIZE_RANGE)
  have hpers := hm ⟨malloc heap ((sizeofArena + ScratchSize) % SIZE_RANGE) :: heap.live⟩
    ((sizeofArena + ScratchSize) % SIZE_RANGE)
  have key : Arena.InitScratch malloc (ThreadState.start heap objects) =
      ⟨malloc heap ((sizeofArena + ScratchSize) % SIZE_RANGE),
        malloc ⟨malloc heap ((sizeofArena + ScratchSize) % SIZE_RANGE) :: heap.live⟩
          ((sizeofArena + ScratchSize) % SIZE_RANGE),
        ⟨malloc ⟨malloc heap ((sizeofArena + ScratchSize) % SIZE_RANGE) :: heap.live⟩
            ((sizeofArena + ScratchSize) % SIZE_RANGE) ::
          malloc heap ((sizeofArena + ScratchSize) % SIZE_RANGE) :: heap.live⟩,
        (malloc ⟨malloc heap ((sizeofArena + ScratchSize) % SIZE_RANGE) :: heap.live⟩
            ((sizeofArena + ScratchSize) % SIZE_RANGE),
          Arena.Create
            (malloc ⟨malloc heap ((sizeofArena + ScratchSize) % SIZE_RANGE) :: heap.live⟩
              ((sizeofArena + ScratchSize) % SIZE_RANGE)) ScratchSize) ::
          (malloc heap ((sizeofArena + ScratchSize) % SIZE_RANGE),
            Arena.Create (malloc heap ((sizeofArena + ScratchSize) % SIZE_RANGE))
              ScratchSize) :: objects⟩ :=
    initScratch_of_null malloc (ThreadState.start heap objects) rfl rfl
  generalize malloc ⟨malloc heap ((sizeofArena + ScratchSize) % SIZE_RANGE) :: heap.live⟩
    ((sizeofArena + ScratchSize) % SIZE_RANGE) = persistent at key hpers
  generalize malloc heap ((sizeofArena + ScratchSize) % SIZE_RANGE) = temp at key hpers htemp
  have hne : temp ≠ persistent := by
    intro heq
    apply hpers.2
    rw [← heq]
    exact List.mem_cons_self _ _
  refine ⟨rfl, rfl, temp, persistent, ?_⟩
  rw [key]
  refine ⟨rfl, rfl, htemp.1, hpers.1, hne, ?_, ?_, rfl, rfl, rfl, rfl, rfl, rfl, ?_⟩
  · have hb : (temp == persistent) = false := by simpa using hne
    simp [List.lookup, hb]
  · simp [List.lookup]
  · intro n
    induction n with
    | zero => rfl
    | succ n ih =>
      rw [Function.iterate_succ_apply, initScratch_of_ne_null malloc _ (Or.inl htemp.1)]
      exact ih

theorem scratch_singletons_created_once_witness :
    MallocContract bumpMalloc ∧
      Arena.GetTempScratch (Arena.InitScratch bumpMalloc (ThreadState.start ⟨[]⟩ [])) = 4096 ∧
      Arena.GetPersistentScratch (Arena.InitScratch bumpMalloc (ThreadState.start ⟨[]⟩ [])) =
        8192 ∧
      (Arena.InitScratch bumpMalloc)^[3] (Arena.InitScratch bumpMalloc (ThreadState.start ⟨[]⟩ [])) =
        Arena.InitScratch bumpMalloc (ThreadState.start ⟨[]⟩ []) := by
  obtain ⟨-, -, temp, persistent, h1, h2, -, -, -, -, -, -, -, -, -, -, -, h3⟩ :=
    scratch_singletons_created_once bumpMalloc bumpMalloc_contract ⟨[]⟩ []
  exact ⟨bumpMalloc_contract, by decide, by decide, h3 3⟩

/-- Shape of the state after the first `InitScratch` of a thread. -/
theorem initScratch_start (malloc : Heap → Nat → Nat) (hm : MallocContract malloc)
    (heap : Heap) (objects : List (Nat × Arena)) :
    ∃ temp persistent : Nat, temp ≠ 0 ∧ persistent ≠ 0 ∧ temp ≠ persistent ∧
      temp ∉ heap.live ∧ persistent ∉ heap.live ∧
      Arena.InitScratch malloc (ThreadState.start heap objects) =
        ⟨temp, persistent, ⟨persistent :: temp :: heap.live⟩,
          (persistent, Arena.Create persistent ScratchSize) ::
            (temp, Arena.Create temp ScratchSize) :: objects⟩ := by
  have htemp := hm heap ((sizeofArena + ScratchSize) % SIZE_RANGE)
  have hpers := hm ⟨malloc heap ((sizeofArena + ScratchSize) % SIZE_RANGE) :: heap.live⟩
    ((sizeofArena + ScratchSize) % SIZE_RANGE)
  refine ⟨_, _, htemp.1, hpers.1, ?_, htemp.2, ?_,
    initScratch_of_null malloc (ThreadState.start heap objects) rfl rfl⟩
  · intro heq
    apply hpers.2
    rw [← heq]
    exact List.mem_cons_self _ _
  · intro hmem
    exact hpers.2 (List.mem_cons_of_mem _ hmem)

/-- C20: after `InitScratch(); DisposeScratch()` both getters still return the
pointers that `InitScratch` stored, which are not null, although both blocks
have been released; a following `InitScratch()` leaves the state as it is, so it
creates no arena. `malloc` is assumed to return a block that is neither null nor
live. -/
theorem disposeScratch_keeps_pointers (malloc : Heap → Nat → Nat)
    (hm : MallocContract malloc) (heap : Heap) (objects : List (Nat × Arena)) :
    ∃ t2 : ThreadState,
      Arena.DisposeScratch (Arena.InitScratch malloc (ThreadState.start heap objects)) =
        some t2 ∧
      Arena.GetTempScratch t2 =
        Arena.GetTempScratch (Arena.InitScratch malloc (ThreadState.start heap objects)) ∧
      Arena.GetPersistentScratch t2 =
        Arena.GetPersistentScratch
          (Arena.InitScratch malloc (ThreadState.start heap objects)) ∧
      Arena.GetTempScratch t2 ≠ 0 ∧ Arena.GetPersistentScratch t2 ≠ 0 ∧
      Arena.GetTempScratch t2 ∉ t2.heap.live ∧
      Arena.GetPersistentScratch t2 ∉ t2.heap.live ∧
      t2.objects = (Arena.InitScratch malloc (ThreadState.start heap objects)).objects ∧
      Arena.InitScratch malloc t2 = t2 ∧
      ∀ n : Nat, (Arena.InitScratch malloc)^[n] t2 = t2 := by
  obtain ⟨temp, persistent, h1, h2, hne, hl1, hl2, key⟩ :=
    initScratch_start malloc hm heap objects
  rw [key]
  have hb : (temp == persistent) = false := by simpa using hne
  have hb' : (persistent == temp) = false := by simpa using hne.symm
  refine ⟨⟨temp, persistent, heap, (persistent, Arena.Create persistent ScratchSize) ::
    (temp, Arena.Create temp ScratchSize) :: objects⟩, ?_, rfl, rfl, h1, h2, hl1, hl2, rfl,
    initScratch_of_ne_null malloc _ (Or.inl h1), ?_⟩
  · simp [Arena.DisposeScratch, Arena.Dispose_at, Arena.Dispose, Heap.free, List.lookup, hb,
      hb', Arena.Create, Arena.Arena]
  · intro n
    induction n with
    | zero => rfl
    | succ n ih =>
      rw [Function.iterate_succ_apply, initScratch_of_ne_null malloc _ (Or.inl h1)]
      exact ih

theorem disposeScratch_keeps_pointers_witness :
    MallocContract bumpMalloc ∧
      Arena.DisposeScratch (Arena.InitScratch bumpMalloc (ThreadState.start ⟨[]⟩ [])) =
        some ⟨4096, 8192, ⟨[]⟩,
          [(8192, Arena.Create 8192 ScratchSize), (4096, Arena.Create 4096 ScratchSize)]⟩ ∧
      ∃ t2 : ThreadState,
        Arena.DisposeScratch (Arena.InitScratch bumpMalloc (ThreadState.start ⟨[]⟩ [])) =
          some t2 ∧
        Arena.GetTempScratch t2 ≠ 0 ∧ Arena.GetPersistentScratch t2 ≠ 0 ∧
        Arena.InitScratch bumpMalloc t2 = t2 := by
  obtain ⟨t2, h1, -, -, h4, h5, -, -, -, h9, -⟩ :=
    disposeScratch_keeps_pointers bumpMalloc bumpMalloc_contract ⟨[]⟩ []
  exact ⟨bumpMalloc_contract, by decide, t2, h1, h4, h5, h9⟩

/-! ## Cursor consistency -/

/-- C16: `m_Position == m_Data + m_AllocatedSize` modulo `2^64` holds in the arena
returned by either `Create`, and every `Push`, `PushZero`, `Pop`, `SetPosBack`
and `Clear` that returns preserves it (for `Pop` and `Clear`, on an arena whose
members hold 64-bit values); hence in every reachable arena `allocatedSize` is
the distance of the cursor from `dataStart`. -/
theorem cursor_consistent_with_allocated_size :
    (∀ buffer size : Nat, Consistent (Arena.Create buffer size)) ∧
      (∀ buffer bufferSize : Nat, Consistent (Arena.Create_buffer buffer bufferSize)) ∧
      (∀ (a a' : Arena) (size block : Nat), Consistent a →
        a.Push size = some (block, a') → Consistent a') ∧
      (∀ (a a' : Arena) (mem mem' : Memory) (size block : Nat), Consistent a →
        a.PushZero mem size = some (block, a', mem') → Consistent a') ∧
      (∀ (a : Arena) (size : Nat), Representable a → Consistent a →
        Consistent (a.Pop size)) ∧
      (∀ (a a' : Arena) (pos : Nat), Consistent a →
        a.SetPosBack pos = some a' → Consistent a') ∧
      (∀ a : Arena, Representable a → Consistent a → Consistent a.Clear) ∧
      (∀ a : Arena, Reachable a →
        Representable a ∧ Consistent a ∧
          blockOffset a a.m_Position = a.m_AllocatedSize) := by
  have hpush : ∀ (a a' : Arena) (size block : Nat), Consistent a →
      a.Push size = some (block, a') → Consistent a' := by
    intro a a' size block hc h
    obtain ⟨-, -, rfl⟩ := push_eq_some h
    simp only [Consistent, SIZE_RANGE] at *
    omega
  have hnew : ∀ (this size : Nat) (flag : Bool), Consistent (Arena.Arena this size flag) := by
    intro this size flag
    simp only [Consistent, Arena.Arena, SIZE_RANGE]
    omega
  refine ⟨?_, ?_, hpush, ?_, ?_, ?_, ?_, ?_⟩
  · intro buffer size
    exact hnew buffer size true
  · intro buffer bufferSize
    exact hnew buffer _ false
  · intro a a' mem mem' size block hc h
    exact hpush a a' size block hc (pushZero_eq_some h).1
  · intro a size hrep hc
    obtain ⟨hd, ht, ha⟩ := hrep
    simp only [Consistent, Arena.Pop, SIZE_RANGE] at *
    omega
  · intro a a' pos _ h
    obtain ⟨-, rfl⟩ := setPosBack_eq_some h
    rfl
  · intro a hrep _
    obtain ⟨hd, -, -⟩ := hrep
    simp only [Consistent, Arena.Clear, SIZE_RANGE] at *
    omega
  · intro a hr
    obtain ⟨hd, ht, hp, ha⟩ := hr.wellFormed
    refine ⟨⟨hd, ht, ?_⟩, hp, blockOffset_position hr.wellFormed⟩
    omega

theorem cursor_consistent_with_allocated_size_witness :
    Consistent (Arena.Create 4096 64) ∧
      Consistent (⟨4136, 4139, 64, 3, true⟩ : Arena) ∧
      Consistent ((⟨4136, 4139, 64, 3, true⟩ : Arena).Pop 2) ∧
      Consistent (⟨4136, 4137, 64, 1, true⟩ : Arena) ∧
      Consistent (⟨4136, 4139, 64, 3, true⟩ : Arena).Clear ∧
      blockOffset (Arena.Create 4096 64) (Arena.Create 4096 64).m_Position =
        (Arena.Create 4096 64).m_AllocatedSize :=
  have h0 := cursor_consistent_with_allocated_size.1 4096 64
  have h1 := cursor_consistent_with_allocated_size.2.2.1
    (Arena.Create 4096 64) ⟨4136, 4139, 64, 3, true⟩ 3 4136 h0 (by decide)
  ⟨h0, h1,
    cursor_consistent_with_allocated_size.2.2.2.2.1 _ 2 (by decide) h1,
    cursor_consistent_with_allocated_size.2.2.2.2.2.1
      ⟨4136, 4139, 64, 3, true⟩ ⟨4136, 4137, 64, 1, true⟩ 1 h1 (by decide),
    cursor_consistent_with_allocated_size.2.2.2.2.2.2.1 _ (by decide) h1,
    (cursor_consistent_with_allocated_size.2.2.2.2.2.2.2 _
      (Reachable.create 4096 64 (by decide))).2.2⟩

/-! ## Buffer-wrapping Create -/

/-- C17, counterexample: for `bufferSize = 8`, smaller than the header, the
`size_t` subtraction `bufferSize - sizeof(Arena)` wraps: the arena gets
`totalSize = 2^64 - 32`, so `totalSize + sizeof(Arena)` is not 8 and `totalSize`
exceeds `bufferSize`. -/
theorem create_buffer_smaller_than_header_wraps :
    (Arena.Create_buffer 4096 8).m_TotalSize = 18446744073709551584 ∧
      (Arena.Create_buffer 4096 8).m_TotalSize + sizeofArena ≠ 8 ∧
      ¬ (Arena.Create_buffer 4096 8).m_TotalSize ≤ 8 := by
  decide

/-- C17, amended: for every `bufferSize` that is at least `sizeof(Arena)`,
`Create(buffer, bufferSize)` yields a non-owning arena whose capacity is what
remains of the buffer after the header: `totalSize + sizeof(Arena) == bufferSize`
as natural numbers, so `totalSize <= bufferSize`, and the usable region starts
right after the header and ends where the buffer ends. -/
theorem create_buffer_capacity_is_remainder (buffer bufferSize : Nat)
    (hlo : sizeofArena ≤ bufferSize) (hhi : bufferSize < SIZE_RANGE) :
    (Arena.Create_buffer buffer bufferSize).m_IsSelfAllocated = false ∧
      (Arena.Create_buffer buffer bufferSize).m_TotalSize + sizeofArena = bufferSize ∧
      (Arena.Create_buffer buffer bufferSize).m_TotalSize ≤ bufferSize ∧
      (Arena.Create_buffer buffer bufferSize).m_AllocatedSize = 0 ∧
      (buffer + sizeofArena < SIZE_RANGE →
        (Arena.Create_buffer buffer bufferSize).m_Data = buffer + sizeofArena ∧
        (Arena.Create_buffer buffer bufferSize).m_Data +
          (Arena.Create_buffer buffer bufferSize).m_TotalSize = buffer + bufferSize) := by
  refine ⟨rfl, ?_, ?_, rfl, ?_⟩
  · simp only [Arena.Create_buffer, Arena.Arena, sizeofArena, SIZE_RANGE] at *
    omega
  · simp only [Arena.Create_buffer, Arena.Arena, sizeofArena, SIZE_RANGE] at *
    omega
  · intro hb
    simp only [Arena.Create_buffer, Arena.Arena, sizeofArena, SIZE_RANGE] at *
    omega

theorem create_buffer_capacity_is_remainder_witness :
    sizeofArena ≤ 104 ∧ 104 < SIZE_RANGE ∧
      (Arena.Create_buffer 12288 104).m_IsSelfAllocated = false ∧
      (Arena.Create_buffer 12288 104).m_TotalSize + sizeofArena = 104 ∧
      (Arena.Create_buffer 12288 104).m_Data +
        (Arena.Create_buffer 12288 104).m_TotalSize = 12288 + 104 :=
  have h := create_buffer_capacity_is_remainder 12288 104 (by decide) (by decide)
  ⟨by decide, by decide, h.1, h.2.1, (h.2.2.2.2 (by decide)).2⟩

/-! ## Wrap-around in Push -/

/-- C18: the claim says that a push which passes the assertion has
`allocatedSize + size <= totalSize` as natural numbers. On the arena reached by
`Create(10); Push(5)`, which satisfies the size invariant, `Push(2^64 - 3)` passes
the assertion, because `5 + (2^64 - 3)` wraps to 2, although `5 + (2^64 - 3)`
exceeds 10; the block starts at offset 5 and the cursor ends below it.
`PushArray` of `2^61 + 1` elements of 8 bytes passes in the same way with a
block of 8 bytes. -/
theorem push_passes_assertion_after_wrap :
    (Arena.Create 4096 10).Push 5 = some (4136, ⟨4136, 4141, 10, 5, true⟩) ∧
      SizeInvariant (⟨4136, 4141, 10, 5, true⟩ : Arena) ∧
      SIZE_RANGE - 3 < SIZE_RANGE ∧
      (⟨4136, 4141, 10, 5, true⟩ : Arena).Push (SIZE_RANGE - 3) =
        some (4141, ⟨4136, 4138, 10, 2, true⟩) ∧
      ¬ (⟨4136, 4141, 10, 5, true⟩ : Arena).m_AllocatedSize + (SIZE_RANGE - 3) ≤
        (⟨4136, 4141, 10, 5, true⟩ : Arena).m_TotalSize ∧
      (Arena.Create 4096 64).PushArray 8 2305843009213693953 =
        some (4136, ⟨4136, 4144, 64, 8, true⟩) := by
  decide

/-! ## The HasReset flag -/

theorem resetTimes_eq_some (n : Nat) :
    ∀ (s s' : ScratchSpace) (arena arena' : Arena),
      resetTimes s arena n = some (s', arena') → s' = s := by
  induction n with
  | zero =>
    intro s s' arena arena' h
    simp only [resetTimes, Option.some.injEq, Prod.mk.injEq] at h
    exact h.1.symm
  | succ n ih =>
    intro s s' arena arena' h
    rw [resetTimes] at h
    cases hr : s.Reset arena with
    | none => simp [hr] at h
    | some r =>
      obtain ⟨s1, arena1⟩ := r
      simp only [hr, Option.bind_eq_bind, Option.some_bind] at h
      have h1 : s1 = s := by
        unfold ScratchSpace.Reset at hr
        cases hb : arena.SetPosBack s.m_ResetPos with
        | none => simp [hb] at hr
        | some b =>
          simp [hb] at hr
          exact hr.1.symm
      rw [← h1]
      exact ih s1 s' arena1 arena' h

/-- C19: the constructor sets the flag to false, `Reset()` returns the scratch
space with the flag it had, and after any number of `Reset()` calls on a
constructed scratch space `HasReset()` is false. -/
theorem scratchSpace_hasReset_stays_false :
    (∀ arena : Arena, (ScratchSpace.ScratchSpace arena).HasReset = false) ∧
      (∀ (s s' : ScratchSpace) (arena arena' : Arena),
        s.Reset arena = some (s', arena') → s'.HasReset = s.HasReset) ∧
      (∀ (a0 arena arena' : Arena) (s' : ScratchSpace) (n : Nat),
        resetTimes (ScratchSpace.ScratchSpace a0) arena n = some (s', arena') →
        s'.HasReset = false) := by
  refine ⟨fun _ => rfl, ?_, ?_⟩
  · intro s s' arena arena' h
    have := resetTimes_eq_some 1 s s' arena arena' (by
      rw [resetTimes, h]
      rfl)
    rw [this]
  · intro a0 arena arena' s' n h
    rw [resetTimes_eq_some n _ s' arena arena' h]
    rfl

theorem scratchSpace_hasReset_stays_false_witness :
    resetTimes (ScratchSpace.ScratchSpace ⟨4136, 4139, 8, 3, true⟩)
        ⟨4136, 4143, 8, 7, true⟩ 3 =
        some (⟨3, false⟩, ⟨4136, 4139, 8, 3, true⟩) ∧
      (⟨3, false⟩ : ScratchSpace).HasReset = false :=
  have h : resetTimes (ScratchSpace.ScratchSpace ⟨4136, 4139, 8, 3, true⟩)
      ⟨4136, 4143, 8, 7, true⟩ 3 = some (⟨3, false⟩, ⟨4136, 4139, 8, 3, true⟩) := by decide
  ⟨h, scratchSpace_hasReset_stays_false.2.2 _ _ _ _ 3 h⟩

end arwh
